import Mathlib

/-!
Verification development for the Codimension core subsystems:
the source-position-to-scope resolver (`src/autocomplete/bufferutils.py`),
the CML annotation machinery (`src/flowui/cml.py`) and the control-flow
diagram selection / hit-testing logic (`src/editor/flowuimouse.py`).

Python strings are modelled as `List Char`; Python integers as `Nat`/`Int`
with explicit sentinel values where the code uses `-1` or `sys.maxint`;
fallible Python code (exceptions) is modelled with `Except`/`Option`.
-/

set_option maxHeartbeats 1000000

/-- Python strings are modelled as lists of characters. -/
abbrev PyStr := List Char

/-- A Python exception, as far as this development needs to distinguish them. -/
inductive PyErr where
  | exception (msg : PyStr)
  | indexError
  | nameError (missing : PyStr)
deriving DecidableEq, Repr

/-- The whitespace characters stripped by Python's `str.strip()`. -/
def pyIsSpaceChar (c : Char) : Bool :=
  c = ' ' || c = '\t' || c = '\n' || c = '\r' || c = '\x0B' || c = '\x0C'

/-- Python `str.lstrip()`. -/
def pyLStrip (s : PyStr) : PyStr := s.dropWhile pyIsSpaceChar

/-- Python `str.rstrip()`. -/
def pyRStrip (s : PyStr) : PyStr := (s.reverse.dropWhile pyIsSpaceChar).reverse

/-- Python `str.strip()`. -/
def pyStrip (s : PyStr) : PyStr := pyLStrip (pyRStrip s)

/-! ## Model of `src/autocomplete/bufferutils.py` -/

/-- The four scope constants of `TextCursorContext`. -/
inductive ScopeType where
  | GlobalScope
  | FunctionScope
  | ClassScope
  | ClassMethodScope
deriving DecidableEq, Repr

/-- A decorator record of the brief-module-info parser: its `line`/`pos`
(1-based) as used by `_isOnDefinitionLine`. -/
structure Decorator where
  line : Nat
  pos : Nat
deriving DecidableEq, Repr

/-- A class or function info object of the brief-module-info parser, with the
fields `bufferutils.py` reads: `line` (keyword line used by `_IdentifyScope`),
`keywordLine`, `colonLine`, `colonPos`, `decorators`, and the nested
`classes`/`functions` lists. -/
inductive InfoObj : Type where
  | mk (line keywordLine colonLine colonPos : Nat)
       (decorators : List Decorator)
       (classes : List InfoObj)
       (functions : List InfoObj)

def InfoObj.line : InfoObj → Nat
  | .mk l _ _ _ _ _ _ => l

def InfoObj.keywordLine : InfoObj → Nat
  | .mk _ k _ _ _ _ _ => k

def InfoObj.colonLine : InfoObj → Nat
  | .mk _ _ c _ _ _ _ => c

def InfoObj.colonPos : InfoObj → Nat
  | .mk _ _ _ p _ _ _ => p

def InfoObj.decorators : InfoObj → List Decorator
  | .mk _ _ _ _ d _ _ => d

def InfoObj.classes : InfoObj → List InfoObj
  | .mk _ _ _ _ _ c _ => c

def InfoObj.functions : InfoObj → List InfoObj
  | .mk _ _ _ _ _ _ f => f

/-- The packed position key `line << 16 + pos` used by `_isOnDefinitionLine`. -/
def packPos (line pos : Nat) : Nat := line * 65536 + pos

/-- The lower limit computed by `_isOnDefinitionLine`: the packed keyword
position (`keywordLine << 16`), lowered to any decorator's packed position
that is smaller. -/
def lowLimitOf (o : InfoObj) : Nat :=
  o.decorators.foldl
    (fun acc d => if packPos d.line d.pos < acc then packPos d.line d.pos else acc)
    (packPos o.keywordLine 0)

/-- `_isOnDefinitionLine(infoObj, line, pos)`: true when the packed cursor key
lies in `[lowLimit, (colonLine << 16) + colonPos]`. -/
def _isOnDefinitionLine (infoObj : InfoObj) (line pos : Nat) : Bool :=
  let lowLimit := lowLimitOf infoObj
  let upLimit := packPos infoObj.colonLine infoObj.colonPos
  let current := packPos line pos
  lowLimit ≤ current && current ≤ upLimit

/-- `TextCursorContext`: the resolved scope stack.  The Python class keeps the
`levels` list and a separate `length` counter; both are modelled. -/
structure TextCursorContext where
  levels : List (InfoObj × ScopeType)
  length : Nat

/-- A fresh `TextCursorContext()`. -/
def TextCursorContext.empty : TextCursorContext := ⟨[], 0⟩

/-- `TextCursorContext.addFunction`: pushes a function frame; the scope type is
`ClassMethodScope` when the frame indexed by `length - 1` is a `ClassScope`
frame, `FunctionScope` otherwise.  (The out-of-range index case of
`levels[length - 1]` cannot occur for contexts whose `length` matches
`levels`; the wildcard arm covers it.) -/
def TextCursorContext.addFunction (ctx : TextCursorContext) (infoObj : InfoObj) :
    TextCursorContext :=
  if ctx.length = 0 then
    ⟨ctx.levels ++ [(infoObj, ScopeType.FunctionScope)], ctx.length + 1⟩
  else
    match ctx.levels.get? (ctx.length - 1) with
    | some (_, ScopeType.ClassScope) =>
        ⟨ctx.levels ++ [(infoObj, ScopeType.ClassMethodScope)], ctx.length + 1⟩
    | _ => ⟨ctx.levels ++ [(infoObj, ScopeType.FunctionScope)], ctx.length + 1⟩

/-- `TextCursorContext.addClass`: pushes a class frame. -/
def TextCursorContext.addClass (ctx : TextCursorContext) (infoObj : InfoObj) :
    TextCursorContext :=
  ⟨ctx.levels ++ [(infoObj, ScopeType.ClassScope)], ctx.length + 1⟩

/-- `TextCursorContext.getScope`: the deepest scope type; `GlobalScope` on an
empty stack.  (The wildcard arm covers the unreachable inconsistent case.) -/
def TextCursorContext.getScope (ctx : TextCursorContext) : ScopeType :=
  if ctx.length = 0 then ScopeType.GlobalScope
  else
    match ctx.levels.get? (ctx.length - 1) with
    | some lv => lv.2
    | none => ScopeType.GlobalScope

/-- `TextCursorContext.getLastScopeLine`: the colon line of the deepest frame;
raises on an empty stack. -/
def TextCursorContext.getLastScopeLine (ctx : TextCursorContext) : Except PyErr Nat :=
  if ctx.length = 0 then .error (.exception "No scopes found".data)
  else
    match ctx.levels.get? (ctx.length - 1) with
    | some lv => .ok lv.1.colonLine
    | none => .error .indexError

/-- `TextCursorContext.stripLevels(nonSpacePos)`: truncates the stack to
`int(nonSpacePos / 4)` frames when that is fewer than the current length.
All reachable call sites pass a non-negative position, so the argument is a
`Nat` and Python's floor division is `Nat` division. -/
def TextCursorContext.stripLevels (ctx : TextCursorContext) (nonSpacePos : Nat) :
    TextCursorContext :=
  let maxLevels := nonSpacePos / 4
  if maxLevels < ctx.length then ⟨ctx.levels.take maxLevels, maxLevels⟩ else ctx

/-- Result of one of the two scan loops inside `_IdentifyScope`: either the
loop hit an on-definition-line object and returned from the whole function
(adding the object first when `skipDef` is false), or it ran to completion
with its `nearest` accumulator. -/
inductive ScanRes where
  | earlyReturn (toAdd : Option InfoObj)
  | done (nearest : Option InfoObj)

/-- The `nearestClassLine`/`nearestFuncLine` value tracked by the loops:
`-1` until an object is recorded, the object's `line` afterwards.  The code
keeps the line and the object in two variables that are always updated
together; the model derives the line from the object. -/
def nearestLineOf : Option InfoObj → Int
  | none => -1
  | some o => (o.line : Int)

/-- The class loop of `_IdentifyScope` (lines 122-138): record the class with
the greatest `line` among those with `line < cursorLine`, returning early on
an on-definition-line class. -/
def _classScan (cursorLine cursorPos : Nat) (skipDef : Bool) :
    List InfoObj → Option InfoObj → ScanRes
  | [], nearest => .done nearest
  | klass :: rest, nearest =>
    if _isOnDefinitionLine klass cursorLine cursorPos then
      if skipDef then .earlyReturn none else .earlyReturn (some klass)
    else if (klass.line : Int) > nearestLineOf nearest ∧ klass.line < cursorLine then
      _classScan cursorLine cursorPos skipDef rest (some klass)
    else
      _classScan cursorLine cursorPos skipDef rest nearest

/-- The function loop of `_IdentifyScope` (lines 143-161): record the function
with the greatest `line` among those with `line > nearestClassLine` and
`line <= cursorLine`, returning early on an on-definition-line function. -/
def _funcScan (cursorLine cursorPos : Nat) (skipDef : Bool)
    (nearestClass : Option InfoObj) :
    List InfoObj → Option InfoObj → ScanRes
  | [], nearest => .done nearest
  | func :: rest, nearest =>
    if _isOnDefinitionLine func cursorLine cursorPos then
      if skipDef then .earlyReturn none else .earlyReturn (some func)
    else if (func.line : Int) > nearestLineOf nearestClass ∧
            (func.line : Int) > nearestLineOf nearest ∧ func.line ≤ cursorLine then
      _funcScan cursorLine cursorPos skipDef nearestClass rest (some func)
    else
      _funcScan cursorLine cursorPos skipDef nearestClass rest nearest

/-- `_IdentifyScope(infoObject, context, cursorLine, cursorPos, skipDef)`.
The `fuel` argument bounds the recursion depth (the Python recursion is
finite because the outline tree is); with fuel exhausted the context is
returned unchanged. -/
def _IdentifyScope : Nat → InfoObj → TextCursorContext → Nat → Nat → Bool →
    TextCursorContext
  | 0, _, context, _, _, _ => context
  | fuel + 1, infoObject, context, cursorLine, cursorPos, skipDef =>
    match _classScan cursorLine cursorPos skipDef infoObject.classes none with
    | .earlyReturn none => context
    | .earlyReturn (some klass) => context.addClass klass
    | .done nearestClassInfo =>
      match _funcScan cursorLine cursorPos skipDef nearestClassInfo
              infoObject.functions none with
      | .earlyReturn none => context
      | .earlyReturn (some func) => context.addFunction func
      | .done nearestFuncInfo =>
        match nearestClassInfo, nearestFuncInfo with
        | none, none => context
        | some c, none =>
            _IdentifyScope fuel c (context.addClass c) cursorLine cursorPos skipDef
        | none, some f =>
            _IdentifyScope fuel f (context.addFunction f) cursorLine cursorPos skipDef
        | some c, some f =>
            if (c.line : Int) > (f.line : Int) then
              _IdentifyScope fuel c (context.addClass c) cursorLine cursorPos skipDef
            else
              _IdentifyScope fuel f (context.addFunction f) cursorLine cursorPos skipDef

/-- The definition selected by one level of the `skipDef = true` walk, when no
definition at the level is on its definition line: `some (true, c)` for a
class, `some (false, f)` for a function, `none` when the level selects
nothing (or when an early return fires). -/
def levelChoice (infoObject : InfoObj) (cursorLine cursorPos : Nat) :
    Option (Bool × InfoObj) :=
  match _classScan cursorLine cursorPos true infoObject.classes none with
  | .earlyReturn _ => none
  | .done nearestClassInfo =>
    match _funcScan cursorLine cursorPos true nearestClassInfo
            infoObject.functions none with
    | .earlyReturn _ => none
    | .done nearestFuncInfo =>
      match nearestClassInfo, nearestFuncInfo with
      | none, none => none
      | some c, none => some (true, c)
      | none, some f => some (false, f)
      | some c, some f =>
          if (c.line : Int) > (f.line : Int) then some (true, c) else some (false, f)

/-- The editor's lexer, as far as `getContext` inspects it: `python` models a
`QsciLexerPython` instance, `other` any other lexer object. -/
inductive LexerKind where
  | python
  | other
deriving DecidableEq, Repr

/-- The slice of a `QsciScintilla` editor that `getContext` reads: the lexer,
the per-line text (`editor.text(line)`, end-of-line characters included),
the cursor, a style oracle answering `_endsWithTripleQuotedString`, and the
outline the external brief-module-info parser would produce for the buffer. -/
structure Editor where
  lexer : Option LexerKind
  srcLines : List PyStr
  cursorLine : Nat
  cursorPos : Nat
  tripleQuoted : Nat → Int → Bool
  parsedInfo : InfoObj

/-- `editor.text(line)`. -/
def Editor.textAt (ed : Editor) (line : Nat) : PyStr := (ed.srcLines.get? line).getD []

/-- `editor.lines()`. -/
def Editor.linesCount (ed : Editor) : Nat := ed.srcLines.length

/-- `_getFirstNonSpacePos` worker carrying the running index. -/
def _getFirstNonSpacePosGo : PyStr → Nat → Int
  | [], _ => -1
  | c :: rest, i =>
    if c = ' ' ∨ c = '\n' ∨ c = '\r' then _getFirstNonSpacePosGo rest (i + 1)
    else (i : Int)

/-- `_getFirstNonSpacePos(text)`: index of the first character not in
`[' ', '\n', '\r']`, `-1` when there is none. -/
def _getFirstNonSpacePos (text : PyStr) : Int := _getFirstNonSpacePosGo text 0

mutual

/-- `_getDefinitionObject(info, line, pos)`: the class or function whose
definition line holds the cursor, searching classes first, depth first.
`fuel` bounds the recursion depth. -/
def _getDefinitionObject : Nat → InfoObj → Nat → Nat → Option InfoObj
  | 0, _, _, _ => none
  | fuel + 1, info, line, pos =>
    match _getDefObjForest fuel info.classes line pos with
    | some obj => some obj
    | none => _getDefObjForest fuel info.functions line pos
termination_by fuel _ _ _ => (fuel, 0)

/-- The per-list part of `_getDefinitionObject`: each object is tested with
`_isOnDefinitionLine`, then searched recursively. -/
def _getDefObjForest : Nat → List InfoObj → Nat → Nat → Option InfoObj
  | _, [], _, _ => none
  | fuel, obj :: rest, line, pos =>
    if _isOnDefinitionLine obj line pos then some obj
    else
      match _getDefinitionObject fuel obj line pos with
      | some found => some found
      | none => _getDefObjForest fuel rest line pos
termination_by fuel l _ _ => (fuel, l.length + 1)

end

/-- The blank-line-skipping loop of `getContext` (`skipBlankLinesBack = True`):
walk lines backwards to the first non-blank one, yielding it together with
`len(text.rstrip())`; `none` when every line down to 0 is blank. -/
def findNonBlankBack (ed : Editor) : Nat → Option (Nat × Nat)
  | 0 =>
    if pyStrip (ed.textAt 0) = [] then none
    else some (0, (pyRStrip (ed.textAt 0)).length)
  | l + 1 =>
    if pyStrip (ed.textAt (l + 1)) = [] then findNonBlankBack ed l
    else some (l + 1, (pyRStrip (ed.textAt (l + 1))).length)

/-- The line-scanning loop of `getContext` (lines 245-266).  The state is the
context, the `continueLine` flag and the last `nonSpacePos` (which Python
leaves unbound until the first non-blank, non-comment line; it is only read
after having been set, so the model threads an initial `0`).  `.inl ctx`
models the early `return context` when stripping empties the stack; `.inr`
carries the state at loop exit (running off the range or `break`ing at the
cursor line). -/
def getContextLoop (ed : Editor) (line : Nat) :
    List Nat → TextCursorContext → Bool → Int →
    Sum TextCursorContext (TextCursorContext × Bool × Int)
  | [], context, continueLine, nonSpacePos => .inr (context, continueLine, nonSpacePos)
  | currentLine :: rest, context, continueLine, nonSpacePos =>
    if currentLine = line then .inr (context, continueLine, nonSpacePos)
    else
      let text := ed.textAt currentLine
      let trimmedText := pyStrip text
      if continueLine = false ∧ (trimmedText = [] ∨ "#".data.isPrefixOf trimmedText) then
        getContextLoop ed line rest context continueLine nonSpacePos
      else
        let nonSpacePos :=
          if continueLine = false then _getFirstNonSpacePos text else nonSpacePos
        let context :=
          if continueLine = false then context.stripLevels nonSpacePos.toNat
          else context
        if continueLine = false ∧ context.length = 0 then .inl context
        else
          let continueLine :=
            decide (",".data.isSuffixOf trimmedText ∨ "\\".data.isSuffixOf trimmedText ∨
              ed.tripleQuoted currentLine ((text.length : Int) - 1))
          getContextLoop ed line rest context continueLine nonSpacePos

/-- `getContext(editor, info, skipBlankLinesBack, skipDef)` (lines 195-276).
A non-Python buffer yields the fresh global context.  `fuel` bounds the
outline recursion depth as in `_IdentifyScope`. -/
def getContext (fuel : Nat) (ed : Editor) (info : Option InfoObj)
    (skipBlankLinesBack : Bool) (skipDef : Bool) : Except PyErr TextCursorContext :=
  let context := TextCursorContext.empty
  match ed.lexer with
  | some LexerKind.python =>
    let info := info.getD ed.parsedInfo
    let (line, pos) :=
      if skipBlankLinesBack then
        match findNonBlankBack ed ed.cursorLine with
        | some lp => lp
        | none => (0, 0)
      else (ed.cursorLine, ed.cursorPos)
    let context := _IdentifyScope fuel info context (line + 1) pos skipDef
    if skipDef = false ∧ (_getDefinitionObject fuel info (line + 1) pos).isSome then
      .ok context
    else if context.length = 0 then .ok context
    else do
      let lastScopeLine ← context.getLastScopeLine
      match getContextLoop ed line
              (List.range' lastScopeLine (ed.linesCount - lastScopeLine))
              context false 0 with
      | .inl ctx => .ok ctx
      | .inr (context, continueLine, nonSpacePos) =>
        if continueLine then .ok (context.stripLevels nonSpacePos.toNat)
        else
          let nsp := _getFirstNonSpacePos (ed.textAt line)
          if nsp = -1 then .ok (context.stripLevels pos)
          else .ok (context.stripLevels (min pos nsp.toNat))
  | _ => .ok context

/-! ## Model of `src/flowui/cml.py` -/

/-- A `QColor`, as far as `cml.py` observes it: channels in `[0, 255]`;
the two-argument-short constructors default alpha to 255. -/
structure PyColor where
  r : Nat
  g : Nat
  b : Nat
  a : Nat
deriving DecidableEq, Repr

/-- Value of a hexadecimal digit character, `none` for a non-digit. -/
def hexDigitVal (c : Char) : Option Nat :=
  if '0' ≤ c ∧ c ≤ '9' then some (c.toNat - '0'.toNat)
  else if 'a' ≤ c ∧ c ≤ 'f' then some (c.toNat - 'a'.toNat + 10)
  else if 'A' ≤ c ∧ c ≤ 'F' then some (c.toNat - 'A'.toNat + 10)
  else none

/-- Value of a decimal digit character, `none` for a non-digit. -/
def decDigitVal (c : Char) : Option Nat :=
  if '0' ≤ c ∧ c ≤ '9' then some (c.toNat - '0'.toNat) else none

/-- Accumulate digit values; the accumulator is `none` until at least one
digit has been read, so an empty digit string fails. -/
def digitsVal (digitVal : Char → Option Nat) (base : Nat) :
    PyStr → Option Nat → Option Nat
  | [], acc => acc
  | c :: rest, acc =>
    match digitVal c with
    | none => none
    | some v => digitsVal digitVal base rest (some ((acc.getD 0) * base + v))

/-- The sign-and-digits part of Python `int(s, base)`, applied to the
stripped string. -/
def pyIntCore (digitVal : Char → Option Nat) (base : Nat) : PyStr → Option Int
  | [] => none
  | c :: rest =>
    if c = '+' then (digitsVal digitVal base rest none).map Int.ofNat
    else if c = '-' then (digitsVal digitVal base rest none).map (fun n => -(n : Int))
    else (digitsVal digitVal base (c :: rest) none).map Int.ofNat

/-- Python `int(s, base)`: strip whitespace, allow one leading sign, then a
non-empty run of digits of the base. -/
def pyInt (digitVal : Char → Option Nat) (base : Nat) (s : PyStr) : Option Int :=
  pyIntCore digitVal base (pyStrip s)

/-- `checkColorRange(value)` as a test: true when `value` is a legal channel.
(The Python function raises outside `[0, 255]`; both call sites catch the
exception and re-raise a format error, which the model produces directly.) -/
def colorInRange (value : Int) : Bool := !(value < 0 || value > 255)

/-- Python `str.split(sep)` for a one-character separator. -/
def splitOnChar (sep : Char) : PyStr → List PyStr
  | [] => [[]]
  | c :: rest =>
    if c = sep then [] :: splitOnChar sep rest
    else
      match splitOnChar sep rest with
      | [] => [[c]]
      | p :: ps => (c :: p) :: ps

/-- The `try` body of `readColor`'s hexadecimal branch: parse `rr gg bb (aa)`
pairs, range-checking each; any failure falls to the `except` clause. -/
def readHexColor (color : PyStr) : Option PyColor := do
  let r ← pyInt hexDigitVal 16 (color.take 2)
  if !colorInRange r then none else do
  let g ← pyInt hexDigitVal 16 ((color.drop 2).take 2)
  if !colorInRange g then none else do
  let b ← pyInt hexDigitVal 16 ((color.drop 4).take 2)
  if !colorInRange b then none else do
  if color.length = 6 then pure ⟨r.toNat, g.toNat, b.toNat, 255⟩
  else do
    let a ← pyInt hexDigitVal 16 ((color.drop 6).take 2)
    if !colorInRange a then none else do
    pure ⟨r.toNat, g.toNat, b.toNat, a.toNat⟩

/-- The `try` body of `readColor`'s decimal branch: parse the comma-separated
parts, range-checking each; any failure falls to the `except` clause. -/
def readDecColor (parts : List PyStr) : Option PyColor := do
  let r ← pyInt decDigitVal 10 (pyStrip (parts.getD 0 []))
  if !colorInRange r then none else do
  let g ← pyInt decDigitVal 10 (pyStrip (parts.getD 1 []))
  if !colorInRange g then none else do
  let b ← pyInt decDigitVal 10 (pyStrip (parts.getD 2 []))
  if !colorInRange b then none else do
  if parts.length = 3 then pure ⟨r.toNat, g.toNat, b.toNat, 255⟩
  else do
    let a ← pyInt decDigitVal 10 (pyStrip (parts.getD 3 []))
    if !colorInRange a then none else do
    pure ⟨r.toNat, g.toNat, b.toNat, a.toNat⟩

/-- `readColor(color)` (cml.py lines 34-83): `#hhhhhh`, `#hhhhhhhh`,
`ddd,ddd,ddd` or `ddd,ddd,ddd,ddd`; malformed or out-of-range input raises a
descriptive format error. -/
def readColor (color : PyStr) : Except PyStr PyColor :=
  if "#".data.isPrefixOf color then
    let color := color.drop 1
    let length := color.length
    if ¬(length = 6 ∨ length = 8) then
      .error ("Invalid hexadecimal color format: #".data ++ color)
    else
      match readHexColor color with
      | some c => .ok c
      | none => .error ("Invalid hexadecimal color format: #".data ++ color)
  else
    let parts := splitOnChar ',' color
    if ¬(parts.length = 3 ∨ parts.length = 4) then
      .error ("Invalid decimal color format: ".data ++ color)
    else
      match readDecColor parts with
      | some c => .ok c
      | none => .error ("Invalid decimal color format: ".data ++ color)

/-- One part (line) of a parsed CML comment, with its 1-based begin position
as used for warnings. -/
structure CMLPart where
  beginLine : Nat
  beginPos : Nat
deriving DecidableEq, Repr

/-- A raw CML comment record as the external control-flow parser delivers it:
directive code (`recordType`), declared `version`, the `key=value`
properties, and the comment's parts. -/
structure RawCML where
  recordType : PyStr
  version : Nat
  properties : List (PyStr × PyStr)
  parts : List CMLPart
deriving DecidableEq, Repr

/-- Python `properties[key]` membership/lookup (dict keys are unique, so the
first match is the value). -/
def lookupProp (props : List (PyStr × PyStr)) (key : PyStr) : Option PyStr :=
  (props.find? (fun p => p.1 = key)).map Prod.snd

/-- A validated, typed CML annotation: `CMLsw`, `CMLcc` (with its parsed
colors) or `CMLrt` (with its text). -/
inductive CMLAnnot where
  | sw (ref : RawCML)
  | cc (ref : RawCML) (bg fg border : Option PyColor)
  | rt (ref : RawCML) (text : PyStr)
deriving DecidableEq, Repr

/-- `CMLVersion.VERSION`, the engine's maximum supported CML version. -/
def cmlSupportedVersion : Nat := 1

/-- Decimal digits of a number, as Python's `str` renders a non-negative int. -/
def natToChars (n : Nat) : PyStr := Nat.toDigits 10 n

/-- `CMLVersion.validate(cmlComment)`: fails when the declared version exceeds
the supported version. -/
def cmlValidateVersion (c : RawCML) : Except PyStr Unit :=
  if c.version > cmlSupportedVersion then
    .error ("The CML comment version ".data ++ natToChars c.version ++
            " is not supported. Max supported version is ".data ++
            natToChars cmlSupportedVersion)
  else .ok ()

/-- `CMLCommentBase.validateRecordType(code)`. -/
def cmlValidateRecordType (c : RawCML) (code : PyStr) : Except PyStr Unit :=
  if c.recordType ≠ code then
    .error ("Invalid CML comment type. Expected: '".data ++ code ++
            "'. Received: '".data ++ c.recordType ++ "'.".data)
  else .ok ()

/-- `CMLsw(ref)`: construction plus `validate()`. -/
def buildCMLsw (c : RawCML) : Except PyStr CMLAnnot := do
  cmlValidateRecordType c "sw".data
  cmlValidateVersion c
  pure (.sw c)

/-- `CMLcc(ref)`: construction plus `validate()`; reads the three optional
color properties (each through `readColor`, whose error propagates) and
requires at least one of them. -/
def buildCMLcc (c : RawCML) : Except PyStr CMLAnnot := do
  cmlValidateRecordType c "cc".data
  cmlValidateVersion c
  let bg ← match lookupProp c.properties "background".data with
    | some v => Except.map some (readColor v)
    | none => pure none
  let fg ← match lookupProp c.properties "foreground".data with
    | some v => Except.map some (readColor v)
    | none => pure none
  let border ← match lookupProp c.properties "border".data with
    | some v => Except.map some (readColor v)
    | none => pure none
  if bg = none ∧ fg = none ∧ border = none then
    .error ("The 'cc' CML comment does not supply neither background ".data ++
            "nor foreground color nor border color".data)
  else pure (.cc c bg fg border)

/-- `CMLrt(ref)`: construction plus `validate()`; requires the `text`
property. -/
def buildCMLrt (c : RawCML) : Except PyStr CMLAnnot := do
  cmlValidateRecordType c "rt".data
  cmlValidateVersion c
  match lookupProp c.properties "text".data with
  | some t => pure (.rt c t)
  | none => .error ("The 'rt' CML comment does not supply text".data)

/-- `CMLVersion.getType` followed by construction: `none` when the record type
is not in `COMMENT_TYPES`, otherwise the `Except` outcome of building the
typed annotation. -/
def buildAnnot (c : RawCML) : Option (Except PyStr CMLAnnot) :=
  if c.recordType = "sw".data then some (buildCMLsw c)
  else if c.recordType = "cc".data then some (buildCMLcc c)
  else if c.recordType = "rt".data then some (buildCMLrt c)
  else none

/-- A `(line, pos, message)` warning as collected by `validateCMLList`. -/
abbrev CMLWarning := Nat × Nat × PyStr

/-- `comments[index].parts[0]`; raises `IndexError` on an empty parts list. -/
def cmlPart0 (c : RawCML) : Except PyErr CMLPart :=
  match c.parts with
  | [] => .error .indexError
  | p :: _ => .ok p

/-- One iteration of the `validateCMLList` loop: the slot's new value (the
typed annotation on success, the untouched raw comment otherwise) and the
warning, if any.  Reading `parts[0]` for a warning can raise. -/
def validateCMLOne (c : RawCML) :
    Except PyErr ((RawCML ⊕ CMLAnnot) × Option CMLWarning) :=
  match buildAnnot c with
  | some (.ok a) => .ok (.inr a, none)
  | some (.error e) => do
      let p ← cmlPart0 c
      .ok (.inl c, some (p.beginLine, p.beginPos, "Invalid CML comment: ".data ++ e))
  | none => do
      let p ← cmlPart0 c
      .ok (.inl c, some (p.beginLine, p.beginPos,
            "CML comment type '".data ++ c.recordType ++ "' is not supported".data))

/-- `CMLVersion.validateCMLList(comments)` (lines 357-383): replace each
recognized, valid comment by its typed annotation in place and collect one
warning per failing comment. -/
def validateCMLList : List RawCML → Except PyErr (List (RawCML ⊕ CMLAnnot) × List CMLWarning)
  | [] => .ok ([], [])
  | c :: rest => do
    let (slot, warn) ← validateCMLOne c
    let (slots, warns) ← validateCMLList rest
    .ok (slot :: slots, (warn.toList) ++ warns)

/-- `" " * (pos - 1)` (empty for `pos = 0`, as in Python). -/
def indentSpaces (pos : Nat) : PyStr := List.replicate (pos - 1) ' '

/-- `CMLsw.generate(pos)`. -/
def CMLsw_generate (pos : Nat) : PyStr := indentSpaces pos ++ "# cml 1 sw".data

/-- Lowercase hexadecimal digit character. -/
def hexDigitChar (n : Nat) : Char :=
  if n < 10 then Char.ofNat ('0'.toNat + n) else Char.ofNat ('a'.toNat + (n - 10))

/-- Two-digit lowercase hexadecimal rendering of a byte. -/
def hexByte (n : Nat) : PyStr := [hexDigitChar (n / 16 % 16), hexDigitChar (n % 16)]

/-- `QColor.name()`: `#rrggbb`, alpha ignored. -/
def colorName (c : PyColor) : PyStr := '#' :: (hexByte c.r ++ hexByte c.g ++ hexByte c.b)

/-- Python `hex(n)[2:]` for a non-negative int: lowercase digits, no padding. -/
def pyHexSuffix (n : Nat) : PyStr := Nat.toDigits 16 n

/-- `name()` plus the unpadded hex alpha suffix appended by `CMLcc.generate`
when the channel's alpha is not 255. -/
def colorNameWithAlpha (c : PyColor) : PyStr :=
  colorName c ++ (if c.a ≠ 255 then pyHexSuffix c.a else [])

/-- `CMLcc.generate(backgound, foreground, border, pos)` (lines 214-237).
The first parameter is spelled `backgound` in the source, but the first
statement of its branch reads the undefined name `background`
(`bg = background.name()`), so passing a background color raises
`NameError` before any line is produced. -/
def CMLcc_generate (backgound foreground border : Option PyColor) (pos : Nat) :
    Except PyErr PyStr := do
  let res := indentSpaces pos ++ "# cml 1 cc".data
  let res ← match backgound with
    | some _ => (Except.error (PyErr.nameError "background".data) : Except PyErr PyStr)
    | none => pure res
  let res := match foreground with
    | some c => res ++ " foreground=".data ++ colorNameWithAlpha c
    | none => res
  let res := match border with
    | some c => res ++ " border=".data ++ colorNameWithAlpha c
    | none => res
  pure res

/-- `str.replace('"', '\\"')` as used by `CMLrt.generate`. -/
def escapeQuotes : PyStr → PyStr
  | [] => []
  | c :: rest => if c = '"' then '\\' :: '"' :: escapeQuotes rest else c :: escapeQuotes rest

/-- `CMLrt.generate(txt, pos)` (lines 274-280). -/
def CMLrt_generate (txt : Option PyStr) (pos : Nat) : PyStr :=
  let res := indentSpaces pos ++ "# cml 1 rt".data
  match txt with
  | some t => res ++ " text=\"".data ++ escapeQuotes t ++ "\"".data
  | none => res

/-! ## Model of `src/editor/flowuimouse.py` (with the cell data of
`src/flowui/scopeitems.py`) -/

/-- `ScopeCellElement` sub-kinds. -/
inductive SubKind where
  | UNKNOWN
  | TOP_LEFT
  | LEFT
  | BOTTOM_LEFT
  | DECLARATION
  | SIDE_COMMENT
  | DOCSTRING
  | TOP
  | BOTTOM
deriving DecidableEq, Repr

/-- The `CellElement` kinds `flowuimouse.py` dispatches on.  The scope kinds
mirror `scopeitems.py`; the leaf kinds come from the cell-element catalogue
(`flowui/items.py`, outside this tree), with `CODE_BLOCK` standing for the
remaining kinds the final branch of `__getItemVisualBeginEnd` lumps
together (if, import, `sys.exit()`, continue, break, code block). -/
inductive CellKind where
  | FILE_SCOPE
  | FUNC_SCOPE
  | CLASS_SCOPE
  | FOR_SCOPE
  | WHILE_SCOPE
  | TRY_SCOPE
  | WITH_SCOPE
  | DECOR_SCOPE
  | ELSE_SCOPE
  | EXCEPT_SCOPE
  | FINALLY_SCOPE
  | ABOVE_COMMENT
  | LEADING_COMMENT
  | SIDE_COMMENT
  | INDEPENDENT_COMMENT
  | ASSERT
  | RAISE
  | RETURN
  | CODE_BLOCK
deriving DecidableEq, Repr

/-- A fragment with absolute begin/end positions, as the control-flow parser
attaches to statements, comments and docstrings. -/
structure Frag where
  begin : Nat
  end_ : Nat
deriving DecidableEq, Repr

/-- The slice of a cell's `ref` (the parsed fragment) that
`__getItemVisualBeginEnd` reads. -/
structure RefData where
  begin : Nat
  end_ : Nat
  body : Frag
  docstring : Option Frag
  sideComment : Option Frag
  leadingComment : Option Frag
  suite : List Frag
  message : Option Frag
  test : Option Frag
  value : Option Frag
deriving DecidableEq, Repr

/-- A graphics item of the flow scene as the mouse mixin observes it:
`isProxyItem()`/`getProxiedItem()`, `scopedItem()`, kind and sub-kind, the
`ref` back-reference, the `getTopLeftItem()` target for declaration cells,
and the two distance queries (`getLineDistance`, implemented in
`scopeitems.py` for scope cells and in the cell-element catalogue for the
rest, is abstracted as a per-item function, as is `getDistance`). -/
inductive SceneItem where
  | mk (kind : CellKind) (subKind : SubKind) (scopedItem proxy : Bool)
       (ref : RefData)
       (lineDist : Nat → Nat) (posDist : Nat → Nat)
       (proxied : Option SceneItem) (topLeft : Option SceneItem)

def SceneItem.kind : SceneItem → CellKind
  | .mk k _ _ _ _ _ _ _ _ => k

def SceneItem.subKind : SceneItem → SubKind
  | .mk _ s _ _ _ _ _ _ _ => s

def SceneItem.scopedItem : SceneItem → Bool
  | .mk _ _ s _ _ _ _ _ _ => s

def SceneItem.proxy : SceneItem → Bool
  | .mk _ _ _ p _ _ _ _ _ => p

def SceneItem.ref : SceneItem → RefData
  | .mk _ _ _ _ r _ _ _ _ => r

def SceneItem.lineDist : SceneItem → Nat → Nat
  | .mk _ _ _ _ _ ld _ _ _ => ld

def SceneItem.posDist : SceneItem → Nat → Nat
  | .mk _ _ _ _ _ _ pd _ _ => pd

def SceneItem.proxied : SceneItem → Option SceneItem
  | .mk _ _ _ _ _ _ _ pr _ => pr

def SceneItem.topLeft : SceneItem → Option SceneItem
  | .mk _ _ _ _ _ _ _ _ tl => tl

/-- `sys.maxint` on a 64-bit CPython 2. -/
def maxint : Nat := 2 ^ 63 - 1

/-- `CFSceneMouseMixin.__getLogicalItem(item)` (lines 35-56). -/
def getLogicalItem : Option SceneItem → Option SceneItem
  | none => none
  | some item =>
    if item.proxy then item.proxied
    else if ¬item.scopedItem then some item
    else if item.subKind = SubKind.DECLARATION then item.topLeft
    else if item.subKind = SubKind.SIDE_COMMENT ∨ item.subKind = SubKind.DOCSTRING then
      some item
    else none

/-- `CFSceneMouseMixin.__getItemVisualBeginEnd(item)` (lines 174-224);
`none` models the `IndexError` of `item.ref.suite[-1]` on an empty suite
(and the attribute errors of a missing side comment / docstring fragment),
which cannot occur for well-formed scenes. -/
def visualBeginEnd (item : SceneItem) : Option (Nat × Nat) :=
  if item.scopedItem then
    if item.subKind = SubKind.SIDE_COMMENT then
      item.ref.sideComment.map (fun f => (f.begin, f.end_))
    else if item.subKind = SubKind.DOCSTRING then
      item.ref.docstring.map (fun f => (f.begin, f.end_))
    else if item.kind = CellKind.FILE_SCOPE then
      match item.ref.docstring with
      | some d => some (d.begin, item.ref.body.end_)
      | none => some (item.ref.body.begin, item.ref.body.end_)
    else if item.kind = CellKind.TRY_SCOPE ∨ item.kind = CellKind.FOR_SCOPE ∨
            item.kind = CellKind.WHILE_SCOPE then
      item.ref.suite.getLast?.map (fun lastSuiteItem => (item.ref.body.begin, lastSuiteItem.end_))
    else
      some (item.ref.body.begin, item.ref.end_)
  else if item.kind = CellKind.ABOVE_COMMENT ∨ item.kind = CellKind.LEADING_COMMENT then
    item.ref.leadingComment.map (fun f => (f.begin, f.end_))
  else if item.kind = CellKind.SIDE_COMMENT then
    item.ref.sideComment.map (fun f => (f.begin, f.end_))
  else if item.kind = CellKind.INDEPENDENT_COMMENT then
    some (item.ref.begin, item.ref.end_)
  else if item.kind = CellKind.ASSERT then
    some (item.ref.body.begin,
      match item.ref.message with
      | some m => m.end_
      | none =>
        match item.ref.test with
        | some t => t.end_
        | none => item.ref.body.end_)
  else if item.kind = CellKind.RAISE ∨ item.kind = CellKind.RETURN then
    some (item.ref.body.begin,
      match item.ref.value with
      | some v => v.end_
      | none => item.ref.body.end_)
  else
    some (item.ref.body.begin, item.ref.body.end_)

/-- The loop of `isNestedInSelected` over the currently selected items:
non-scope and non-`TOP_LEFT` items are skipped; the first selected
`TOP_LEFT` scope cell whose visual span contains the candidate's yields
`true`. -/
def isNestedScanSel (toSelectBegin toSelectEnd : Nat) :
    List SceneItem → Option Bool
  | [] => some false
  | item :: rest =>
    if ¬item.scopedItem then isNestedScanSel toSelectBegin toSelectEnd rest
    else if item.subKind ≠ SubKind.TOP_LEFT then
      isNestedScanSel toSelectBegin toSelectEnd rest
    else
      match visualBeginEnd item with
      | none => none
      | some (itemBegin, itemEnd) =>
        if toSelectBegin ≥ itemBegin ∧ toSelectEnd ≤ itemEnd then some true
        else isNestedScanSel toSelectBegin toSelectEnd rest

/-- `CFSceneMouseMixin.isNestedInSelected(itemToSelect)` (lines 140-155),
with the scene's `selectedItems()` passed explicitly. -/
def isNestedInSelected (itemToSelect : SceneItem) (selectedItems : List SceneItem) :
    Option Bool := do
  let (toSelectBegin, toSelectEnd) ← visualBeginEnd itemToSelect
  isNestedScanSel toSelectBegin toSelectEnd selectedItems

/-- The first loop of `getNearestItem` (lines 243-254): track the minimal
line distance seen (starting at `maxint`) and every item achieving it,
skipping proxy items and items whose distance is the `maxint` sentinel. -/
def nearestScan (line : Nat) : List SceneItem → Nat → List SceneItem →
    Nat × List SceneItem
  | [], distance, candidates => (distance, candidates)
  | item :: rest, distance, candidates =>
    if item.proxy then nearestScan line rest distance candidates
    else
      let dist := item.lineDist line
      if dist = maxint then nearestScan line rest distance candidates
      else if dist < distance then nearestScan line rest dist [item]
      else if dist = distance then nearestScan line rest distance (candidates ++ [item])
      else nearestScan line rest distance candidates

/-- The second loop of `getNearestItem` (lines 271-280): among the
zero-line-distance candidates, return at once on a zero position distance,
otherwise track the candidate with the smallest position distance. -/
def nearestPosScan (absPos : Nat) : List SceneItem → Option SceneItem → Nat →
    Option SceneItem × Nat
  | [], candidate, distance => (getLogicalItem candidate, distance)
  | item :: rest, candidate, distance =>
    let dist := item.posDist absPos
    if dist = 0 then (getLogicalItem (some item), 0)
    else if dist < distance then nearestPosScan absPos rest (some item) dist
    else nearestPosScan absPos rest candidate distance

/-- `CFSceneMouseMixin.getNearestItem(absPos, line, pos)` (lines 235-280),
with the scene's `items()` passed explicitly.  (`pos` is accepted but,
as in the source, never read.) -/
def getNearestItem (items : List SceneItem) (absPos line pos : Nat) :
    Option SceneItem × Nat :=
  match nearestScan line items maxint [] with
  | (_, []) => (none, maxint)
  | (distance, [c]) => (getLogicalItem (some c), distance)
  | (distance, c :: cs) =>
    if distance ≠ 0 then (getLogicalItem (some c), distance)
    else nearestPosScan absPos (c :: cs) none maxint

/-- `distance(val, begin, end)` of the cell-element catalogue
(`flowui/items.py`, not part of this tree). Modelled from the spec: the
distance is `0` when the value lies within the `[begin, end]` span
("0 meaning the line is within the item's span"), otherwise the gap to the
nearer endpoint. -/
def fragDistance (val begin end_ : Nat) : Nat :=
  if begin ≤ val ∧ val ≤ end_ then 0
  else min (max begin val - min begin val) (max end_ val - min end_ val)

/-- Strict lexicographic order on `(line, pos)` pairs. -/
def lexLT (a b : Nat × Nat) : Prop := a.1 < b.1 ∨ (a.1 = b.1 ∧ a.2 < b.2)

/-- Lexicographic order on `(line, pos)` pairs. -/
def lexLE (a b : Nat × Nat) : Prop := a.1 < b.1 ∨ (a.1 = b.1 ∧ a.2 ≤ b.2)

instance (a b : Nat × Nat) : Decidable (lexLT a b) := by
  unfold lexLT; infer_instance

instance (a b : Nat × Nat) : Decidable (lexLE a b) := by
  unfold lexLE; infer_instance

/-- The lexicographic counterpart of `lowLimitOf`: the `(line, pos)` pair of
the keyword (`(keywordLine, 0)`) lowered to any lexicographically smaller
decorator position. -/
def lexLowOf (o : InfoObj) : Nat × Nat :=
  o.decorators.foldl
    (fun acc d => if lexLT (d.line, d.pos) acc then (d.line, d.pos) else acc)
    (o.keywordLine, 0)

/-- Concrete outline: `class A:` on line 1 (colon at column 8). -/
def exClassA : InfoObj := .mk 1 1 1 8 [] [] []

/-- Concrete outline: `def g():` on line 5 (colon at column 8). -/
def exFuncG : InfoObj := .mk 5 5 5 8 [] [] []

/-- Concrete module outline holding `exClassA` and `exFuncG`. -/
def exModule : InfoObj := .mk 0 0 0 0 [] [exClassA] [exFuncG]

/-- Concrete outline: `def m(self):` on line 2 inside a class (colon at
column 16). -/
def exMethodM : InfoObj := .mk 2 2 2 16 [] [] []

/-- Concrete outline: `class A:` on line 1 with the method `exMethodM`. -/
def exClassWithM : InfoObj := .mk 1 1 1 8 [] [] [exMethodM]

/-- Concrete raw CML comment: a valid `sw` directive. -/
def exCMLsw : RawCML := ⟨"sw".data, 1, [], [⟨3, 1⟩]⟩

/-- Concrete raw CML comment with an unknown directive code. -/
def exCMLunknown : RawCML := ⟨"xx".data, 1, [], [⟨4, 1⟩]⟩

/-- Concrete raw CML comment declaring an unsupported version 2. -/
def exCMLv2 : RawCML := ⟨"sw".data, 2, [], [⟨5, 1⟩]⟩

/-- Concrete raw `cc` comment carrying no color property, which fails
validation. -/
def exCMLccBad : RawCML := ⟨"cc".data, 1, [], [⟨6, 1⟩]⟩

/-- Concrete ref of a plain code-block statement spanning `[10, 20]`. -/
def exRefCode : RefData := ⟨10, 20, ⟨10, 20⟩, none, none, none, [], none, none, none⟩

/-- Concrete non-scope code-block scene item over `exRefCode`. -/
def exItemCode : SceneItem :=
  .mk CellKind.CODE_BLOCK SubKind.UNKNOWN false false exRefCode
    (fun _ => 0) (fun _ => 0) none none

/-- Concrete ref of a `for` scope beginning at 5 whose last suite statement
ends at 30. -/
def exRefFor : RefData := ⟨5, 25, ⟨5, 12⟩, none, none, none, [⟨14, 30⟩], none, none, none⟩

/-- Concrete selected `TOP_LEFT` cell of the `for` scope over `exRefFor`. -/
def exItemForTL : SceneItem :=
  .mk CellKind.FOR_SCOPE SubKind.TOP_LEFT true false exRefFor
    (fun _ => 0) (fun _ => 0) none none

/-- Concrete nearest-query item: spans lines `[5, 8]` and absolute positions
`[40, 60]`. -/
def exItemNearA : SceneItem :=
  .mk CellKind.CODE_BLOCK SubKind.UNKNOWN false false exRefCode
    (fun l => fragDistance l 5 8) (fun p => fragDistance p 40 60) none none

/-- Concrete nearest-query item: spans lines `[6, 9]` and absolute positions
`[80, 90]`. -/
def exItemNearB : SceneItem :=
  .mk CellKind.CODE_BLOCK SubKind.UNKNOWN false false exRefCode
    (fun l => fragDistance l 6 9) (fun p => fragDistance p 80 90) none none

/-! ## Theorems -/

/-- A one-line function outline object used by concrete instances. -/
def sampleInfo : InfoObj := .mk 1 1 1 10 [] [] []

/-- C9: for every context whose `length` matches its `levels` list and every
non-negative column position `n`, `stripLevels n` leaves exactly the first
`min (length, n / 4)` frames and keeps `length` consistent with `levels`;
in particular it never adds frames. -/
theorem stripLevels_keeps_min_levels (ctx : TextCursorContext) (n : Nat)
    (h : ctx.length = ctx.levels.length) :
    (ctx.stripLevels n).levels = ctx.levels.take (min ctx.levels.length (n / 4)) ∧
    (ctx.stripLevels n).length = (ctx.stripLevels n).levels.length ∧
    (ctx.stripLevels n).levels.length ≤ ctx.levels.length := by
  unfold TextCursorContext.stripLevels
  by_cases hlt : n / 4 < ctx.length
  · have hle : n / 4 ≤ ctx.levels.length := by omega
    simp only [hlt, if_pos]
    refine ⟨?_, ?_, ?_⟩
    · rw [Nat.min_eq_right hle]
    · simp [List.length_take, Nat.min_eq_left hle]
    · simp only [List.length_take]; omega
  · have hge : ctx.levels.length ≤ n / 4 := by omega
    simp only [hlt, if_neg, not_false_iff]
    refine ⟨?_, h, le_refl _⟩
    rw [Nat.min_eq_left hge, List.take_length]

/-- Witness for `stripLevels_keeps_min_levels` at a concrete two-frame
context and column 4. -/
theorem stripLevels_keeps_min_levels_witness :
    (TextCursorContext.stripLevels
        ⟨[(sampleInfo, ScopeType.ClassScope), (sampleInfo, ScopeType.ClassMethodScope)], 2⟩
        4).levels =
      [(sampleInfo, ScopeType.ClassScope),
       (sampleInfo, ScopeType.ClassMethodScope)].take (min 2 (4 / 4)) ∧
    (TextCursorContext.stripLevels
        ⟨[(sampleInfo, ScopeType.ClassScope), (sampleInfo, ScopeType.ClassMethodScope)], 2⟩
        4).length =
      (TextCursorContext.stripLevels
        ⟨[(sampleInfo, ScopeType.ClassScope), (sampleInfo, ScopeType.ClassMethodScope)], 2⟩
        4).levels.length ∧
    (TextCursorContext.stripLevels
        ⟨[(sampleInfo, ScopeType.ClassScope), (sampleInfo, ScopeType.ClassMethodScope)], 2⟩
        4).levels.length ≤ 2 :=
  stripLevels_keeps_min_levels
    ⟨[(sampleInfo, ScopeType.ClassScope), (sampleInfo, ScopeType.ClassMethodScope)], 2⟩
    4 rfl

/-- C8: on an editor whose lexer is absent or not the Python lexer,
`getContext` returns the fresh zero-frame context without raising, and
`getScope()` on any zero-frame context is `GlobalScope`. -/
theorem getContext_non_python_global (fuel : Nat) (ed : Editor)
    (info : Option InfoObj) (skipBlankLinesBack skipDef : Bool)
    (h : ed.lexer ≠ some LexerKind.python) :
    getContext fuel ed info skipBlankLinesBack skipDef = .ok TextCursorContext.empty ∧
    TextCursorContext.empty.length = 0 ∧
    (∀ ctx : TextCursorContext, ctx.length = 0 →
        ctx.getScope = ScopeType.GlobalScope) := by
  refine ⟨?_, rfl, ?_⟩
  · unfold getContext
    rcases hl : ed.lexer with _ | lk
    · rfl
    · cases lk
      · exact absurd hl h
      · rfl
  · intro ctx hc
    simp [TextCursorContext.getScope, hc]

/-- Witness for `getContext_non_python_global` on a concrete editor with no
lexer. -/
theorem getContext_non_python_global_witness :
    getContext 5
        ⟨none, ["x = 1\n".data], 0, 0, fun _ _ => false, sampleInfo⟩
        none false true = .ok TextCursorContext.empty ∧
    TextCursorContext.empty.length = 0 ∧
    (∀ ctx : TextCursorContext, ctx.length = 0 →
        ctx.getScope = ScopeType.GlobalScope) :=
  getContext_non_python_global 5
    ⟨none, ["x = 1\n".data], 0, 0, fun _ _ => false, sampleInfo⟩
    none false true (by simp)

/-- C3 (code bug): `CMLcc.generate` with a background color raises `NameError`
because the parameter is spelled `backgound` while the body reads
`background`; the round trip promised for every valid `cc` input is
therefore impossible for any input carrying a background color.  Evaluated
here at the documentation's own example color `#f6f4e4`. -/
theorem cml_cc_generate_background_raises :
    CMLcc_generate (some ⟨246, 244, 228, 255⟩) none none 1 =
      .error (PyErr.nameError "background".data) := rfl

/-- The if-based running minimum of `_isOnDefinitionLine`'s decorator loop is
the fold of `min`. -/
theorem foldl_if_lt_eq_foldl_min (l : List Nat) (acc : Nat) :
    l.foldl (fun a x => if x < a then x else a) acc = l.foldl min acc := by
  induction l generalizing acc with
  | nil => rfl
  | cons x rest ih =>
    simp only [List.foldl_cons]
    have : (if x < acc then x else acc) = min acc x := by
      rcases Nat.lt_or_ge x acc with h | h
      · simp [h, Nat.min_eq_right (Nat.le_of_lt h)]
      · have : ¬ x < acc := Nat.not_lt.mpr h
        simp [this, Nat.min_eq_left h]
    rw [this, ih]

/-- Packed-key comparison agrees with the lexicographic order exactly when
both column values are below `2 ^ 16`. -/
theorem packPos_le_iff (a b : Nat × Nat) (ha : a.2 < 65536) (hb : b.2 < 65536) :
    packPos a.1 a.2 ≤ packPos b.1 b.2 ↔ lexLE a b := by
  simp only [packPos, lexLE]
  omega

/-- Strict packed-key comparison agrees with the strict lexicographic order
exactly when both column values are below `2 ^ 16`. -/
theorem packPos_lt_iff (a b : Nat × Nat) (ha : a.2 < 65536) (hb : b.2 < 65536) :
    packPos a.1 a.2 < packPos b.1 b.2 ↔ lexLT a b := by
  simp only [packPos, lexLT]
  omega

/-- Under the `2 ^ 16` column bound, the packed running minimum of the
decorator loop is the packed value of the lexicographic running minimum. -/
theorem lowFold_eq_pack (ds : List Decorator) (acc : Nat × Nat)
    (hacc : acc.2 < 65536) (hds : ∀ d ∈ ds, d.pos < 65536) :
    ds.foldl (fun a d => if packPos d.line d.pos < a then packPos d.line d.pos else a)
        (packPos acc.1 acc.2) =
      packPos (ds.foldl (fun a d => if lexLT (d.line, d.pos) a then (d.line, d.pos) else a)
                acc).1
              (ds.foldl (fun a d => if lexLT (d.line, d.pos) a then (d.line, d.pos) else a)
                acc).2 ∧
    (ds.foldl (fun a d => if lexLT (d.line, d.pos) a then (d.line, d.pos) else a)
      acc).2 < 65536 := by
  induction ds generalizing acc with
  | nil => exact ⟨rfl, hacc⟩
  | cons d rest ih =>
    have hd : d.pos < 65536 := hds d (List.mem_cons_self _ _)
    have hiff : packPos d.line d.pos < packPos acc.1 acc.2 ↔ lexLT (d.line, d.pos) acc :=
      packPos_lt_iff (d.line, d.pos) acc hd hacc
    simp only [List.foldl_cons]
    by_cases hc : lexLT (d.line, d.pos) acc
    · have hc' : packPos d.line d.pos < packPos acc.1 acc.2 := hiff.mpr hc
      rw [if_pos hc', if_pos hc]
      exact ih (d.line, d.pos) hd (fun x hx => hds x (List.mem_cons_of_mem _ hx))
    · have hc' : ¬ packPos d.line d.pos < packPos acc.1 acc.2 := fun h => hc (hiff.mp h)
      rw [if_neg hc', if_neg hc]
      exact ih acc hacc (fun x hx => hds x (List.mem_cons_of_mem _ hx))

/-- C10: `_isOnDefinitionLine` is exactly the packed-key interval test
(true iff `line * 2^16 + pos` lies between the minimum packed position over
keyword and decorators and the packed colon position, inclusive); when every
column value involved is below `2^16` this coincides with the lexicographic
interval on `(line, pos)` pairs, and with a column of `2^16` the two
disagree: the packed test accepts `(4, 65536)` for a definition whose
keyword line is 5 although `(4, 65536)` is lexicographically before the
span's lower bound `(5, 0)`. -/
theorem isOnDefinitionLine_packed_spec (o : InfoObj) (line pos : Nat) :
    (_isOnDefinitionLine o line pos = true ↔
      lowLimitOf o ≤ packPos line pos ∧
      packPos line pos ≤ packPos o.colonLine o.colonPos) ∧
    lowLimitOf o =
      (o.decorators.map (fun d => packPos d.line d.pos)).foldl min
        (packPos o.keywordLine 0) ∧
    (pos < 65536 → o.colonPos < 65536 → (∀ d ∈ o.decorators, d.pos < 65536) →
      (_isOnDefinitionLine o line pos = true ↔
        lexLE (lexLowOf o) (line, pos) ∧
        lexLE (line, pos) (o.colonLine, o.colonPos))) ∧
    (_isOnDefinitionLine (InfoObj.mk 5 5 5 3 [] [] []) 4 65536 = true ∧
      ¬ lexLE (lexLowOf (InfoObj.mk 5 5 5 3 [] [] [])) (4, 65536)) := by
  have hchar : _isOnDefinitionLine o line pos = true ↔
      lowLimitOf o ≤ packPos line pos ∧
      packPos line pos ≤ packPos o.colonLine o.colonPos := by
    simp [_isOnDefinitionLine, Bool.and_eq_true, decide_eq_true_eq]
  refine ⟨hchar, ?_, ?_, by decide, by decide⟩
  · have h1 : lowLimitOf o =
        (o.decorators.map (fun d => packPos d.line d.pos)).foldl
          (fun a x => if x < a then x else a) (packPos o.keywordLine 0) := by
      unfold lowLimitOf
      rw [List.foldl_map]
    rw [h1]
    exact foldl_if_lt_eq_foldl_min _ _
  · intro hpos hcolon hds
    have hfold := lowFold_eq_pack o.decorators (o.keywordLine, 0) (by norm_num) hds
    have hlow : lowLimitOf o = packPos (lexLowOf o).1 (lexLowOf o).2 := by
      unfold lowLimitOf lexLowOf
      exact hfold.1
    have hlowpos : (lexLowOf o).2 < 65536 := by
      unfold lexLowOf
      exact hfold.2
    rw [hchar, hlow]
    rw [packPos_le_iff (lexLowOf o) (line, pos) hlowpos hpos]
    rw [packPos_le_iff (line, pos) (o.colonLine, o.colonPos) hpos hcolon]

/-- Witness for `isOnDefinitionLine_packed_spec`: the bounded-column clause
instantiated at a concrete definition and cursor. -/
theorem isOnDefinitionLine_packed_spec_witness :
    _isOnDefinitionLine (InfoObj.mk 5 5 5 3 [] [] []) 5 2 = true ↔
      lexLE (lexLowOf (InfoObj.mk 5 5 5 3 [] [] [])) (5, 2) ∧
      lexLE (5, 2) (5, 3) :=
  (isOnDefinitionLine_packed_spec (InfoObj.mk 5 5 5 3 [] [] []) 5 2).2.2.1
    (by decide) (by decide) (by decide)

/-- With `skipDef = true` the class loop never returns an object to add. -/
theorem classScan_earlyReturn_none (cl cp : Nat) (l : List InfoObj)
    (acc t : Option InfoObj)
    (h : _classScan cl cp true l acc = ScanRes.earlyReturn t) : t = none := by
  induction l generalizing acc with
  | nil => simp [_classScan] at h
  | cons k rest ih =>
    by_cases hd : _isOnDefinitionLine k cl cp
    · simp [_classScan, hd] at h
      exact h.symm
    · simp only [_classScan, hd, Bool.false_eq_true, if_false] at h
      by_cases hcond : (k.line : Int) > nearestLineOf acc ∧ k.line < cl
      · rw [if_pos hcond] at h; exact ih _ h
      · rw [if_neg hcond] at h; exact ih _ h

/-- With `skipDef = true` the function loop never returns an object to add. -/
theorem funcScan_earlyReturn_none (cl cp : Nat) (nc : Option InfoObj)
    (l : List InfoObj) (acc t : Option InfoObj)
    (h : _funcScan cl cp true nc l acc = ScanRes.earlyReturn t) : t = none := by
  induction l generalizing acc with
  | nil => simp [_funcScan] at h
  | cons f rest ih =>
    by_cases hd : _isOnDefinitionLine f cl cp
    · simp [_funcScan, hd] at h
      exact h.symm
    · simp only [_funcScan, hd, Bool.false_eq_true, if_false] at h
      by_cases hcond : (f.line : Int) > nearestLineOf nc ∧
          (f.line : Int) > nearestLineOf acc ∧ f.line ≤ cl
      · rw [if_pos hcond] at h; exact ih _ h
      · rw [if_neg hcond] at h; exact ih _ h

/-- Characterization of a completed class loop when no class at the level is
on its definition line: the loop completes, its result is a candidate
(`line < cursorLine`) from the list or the initial accumulator, it has the
greatest line among candidates, and it only stays empty when the
accumulator was empty. -/
theorem classScan_done_spec (cl cp : Nat) (l : List InfoObj) (acc : Option InfoObj)
    (h : ∀ c ∈ l, _isOnDefinitionLine c cl cp = false) :
    ∃ res, _classScan cl cp true l acc = ScanRes.done res ∧
      (∀ c, res = some c → (c ∈ l ∧ c.line < cl) ∨ acc = some c) ∧
      (∀ x ∈ l, x.line < cl → (x.line : Int) ≤ nearestLineOf res) ∧
      nearestLineOf acc ≤ nearestLineOf res ∧
      (res = none → acc = none) := by
  induction l generalizing acc with
  | nil =>
    refine ⟨acc, rfl, ?_, ?_, le_refl _, fun hn => hn⟩
    · intro c hc; exact Or.inr hc
    · intro x hx; simp at hx
  | cons k rest ih =>
    have hk : _isOnDefinitionLine k cl cp = false := h k (List.mem_cons_self _ _)
    have hrest : ∀ c ∈ rest, _isOnDefinitionLine c cl cp = false :=
      fun c hc => h c (List.mem_cons_of_mem _ hc)
    by_cases hcond : (k.line : Int) > nearestLineOf acc ∧ k.line < cl
    · obtain ⟨res, heq, h1, h2, h3, h4⟩ := ih (some k) hrest
      have hstep : _classScan cl cp true (k :: rest) acc = ScanRes.done res := by
        simp only [_classScan, hk, Bool.false_eq_true, if_false]
        rw [if_pos hcond]
        exact heq
      refine ⟨res, hstep, ?_, ?_, ?_, ?_⟩
      · intro c hc
        rcases h1 c hc with ⟨hmem, hlt⟩ | hacc
        · exact Or.inl ⟨List.mem_cons_of_mem _ hmem, hlt⟩
        · injection hacc with hkc
          subst hkc
          exact Or.inl ⟨List.mem_cons_self _ _, hcond.2⟩
      · intro x hx hxlt
        rcases List.mem_cons.mp hx with rfl | hmem
        · simpa [nearestLineOf] using h3
        · exact h2 x hmem hxlt
      · calc nearestLineOf acc ≤ (k.line : Int) := le_of_lt hcond.1
          _ ≤ nearestLineOf res := by simpa [nearestLineOf] using h3
      · intro hres
        have hko := h4 hres
        simp at hko
    · obtain ⟨res, heq, h1, h2, h3, h4⟩ := ih acc hrest
      have hstep : _classScan cl cp true (k :: rest) acc = ScanRes.done res := by
        simp only [_classScan, hk, Bool.false_eq_true, if_false]
        rw [if_neg hcond]
        exact heq
      refine ⟨res, hstep, ?_, ?_, h3, h4⟩
      · intro c hc
        rcases h1 c hc with ⟨hmem, hlt⟩ | hacc
        · exact Or.inl ⟨List.mem_cons_of_mem _ hmem, hlt⟩
        · exact Or.inr hacc
      · intro x hx hxlt
        rcases List.mem_cons.mp hx with rfl | hmem
        · have hle : (x.line : Int) ≤ nearestLineOf acc := by
            rcases not_and_or.mp hcond with hn | hn
            · omega
            · exact absurd hxlt hn
          exact le_trans hle h3
        · exact h2 x hmem hxlt

/-- Characterization of a completed function loop when no function at the
level is on its definition line: the loop completes, its result is a
candidate (`line <= cursorLine` and beyond the nearest class line) from the
list or the initial accumulator, it has the greatest line among such
candidates, and it only stays empty when the accumulator was empty. -/
theorem funcScan_done_spec (cl cp : Nat) (nc : Option InfoObj) (l : List InfoObj)
    (acc : Option InfoObj)
    (h : ∀ f ∈ l, _isOnDefinitionLine f cl cp = false) :
    ∃ res, _funcScan cl cp true nc l acc = ScanRes.done res ∧
      (∀ f, res = some f →
        (f ∈ l ∧ f.line ≤ cl ∧ (f.line : Int) > nearestLineOf nc) ∨ acc = some f) ∧
      (∀ x ∈ l, x.line ≤ cl → (x.line : Int) > nearestLineOf nc →
        (x.line : Int) ≤ nearestLineOf res) ∧
      nearestLineOf acc ≤ nearestLineOf res ∧
      (res = none → acc = none) := by
  induction l generalizing acc with
  | nil =>
    refine ⟨acc, rfl, ?_, ?_, le_refl _, fun hn => hn⟩
    · intro f hf; exact Or.inr hf
    · intro x hx; simp at hx
  | cons g rest ih =>
    have hg : _isOnDefinitionLine g cl cp = false := h g (List.mem_cons_self _ _)
    have hrest : ∀ f ∈ rest, _isOnDefinitionLine f cl cp = false :=
      fun f hf => h f (List.mem_cons_of_mem _ hf)
    by_cases hcond : (g.line : Int) > nearestLineOf nc ∧
        (g.line : Int) > nearestLineOf acc ∧ g.line ≤ cl
    · obtain ⟨res, heq, h1, h2, h3, h4⟩ := ih (some g) hrest
      have hstep : _funcScan cl cp true nc (g :: rest) acc = ScanRes.done res := by
        simp only [_funcScan, hg, Bool.false_eq_true, if_false]
        rw [if_pos hcond]
        exact heq
      refine ⟨res, hstep, ?_, ?_, ?_, ?_⟩
      · intro f hf
        rcases h1 f hf with ⟨hmem, hle, hgt⟩ | hacc
        · exact Or.inl ⟨List.mem_cons_of_mem _ hmem, hle, hgt⟩
        · injection hacc with hgf
          subst hgf
          exact Or.inl ⟨List.mem_cons_self _ _, hcond.2.2, hcond.1⟩
      · intro x hx hxle hxgt
        rcases List.mem_cons.mp hx with rfl | hmem
        · simpa [nearestLineOf] using h3
        · exact h2 x hmem hxle hxgt
      · calc nearestLineOf acc ≤ (g.line : Int) := le_of_lt hcond.2.1
          _ ≤ nearestLineOf res := by simpa [nearestLineOf] using h3
      · intro hres
        have hko := h4 hres
        simp at hko
    · obtain ⟨res, heq, h1, h2, h3, h4⟩ := ih acc hrest
      have hstep : _funcScan cl cp true nc (g :: rest) acc = ScanRes.done res := by
        simp only [_funcScan, hg, Bool.false_eq_true, if_false]
        rw [if_neg hcond]
        exact heq
      refine ⟨res, hstep, ?_, ?_, h3, h4⟩
      · intro f hf
        rcases h1 f hf with ⟨hmem, hle, hgt⟩ | hacc
        · exact Or.inl ⟨List.mem_cons_of_mem _ hmem, hle, hgt⟩
        · exact Or.inr hacc
      · intro x hx hxle hxgt
        rcases List.mem_cons.mp hx with rfl | hmem
        · have hle : (x.line : Int) ≤ nearestLineOf acc := by
            rcases not_and_or.mp hcond with hn | hn
            · exact absurd hxgt hn
            · rcases not_and_or.mp hn with hn2 | hn2
              · omega
              · exact absurd hxle hn2
          exact le_trans hle h3
        · exact h2 x hmem hxle hxgt

/-- One level of the `skipDef = true` walk, fully characterized when no
definition at the level is on its definition line: either no candidate
exists and the context is unchanged, or the chosen definition is a
candidate (`line < cursorLine` for classes, `line <= cursorLine` for
functions) with the greatest line among all candidates, and the walk
descends into it. -/
theorem identifyScope_level_aux (fuel : Nat) (info : InfoObj)
    (ctx : TextCursorContext) (cl cp : Nat)
    (hc : ∀ c ∈ info.classes, _isOnDefinitionLine c cl cp = false)
    (hf : ∀ f ∈ info.functions, _isOnDefinitionLine f cl cp = false) :
    (levelChoice info cl cp = none →
       _IdentifyScope (fuel + 1) info ctx cl cp true = ctx ∧
       (∀ c ∈ info.classes, ¬ c.line < cl) ∧
       (∀ f ∈ info.functions, ¬ f.line ≤ cl)) ∧
    (∀ d, levelChoice info cl cp = some (true, d) →
       (d ∈ info.classes ∧ d.line < cl) ∧
       (∀ c ∈ info.classes, c.line < cl → c.line ≤ d.line) ∧
       (∀ f ∈ info.functions, f.line ≤ cl → f.line ≤ d.line) ∧
       _IdentifyScope (fuel + 1) info ctx cl cp true =
         _IdentifyScope fuel d (ctx.addClass d) cl cp true) ∧
    (∀ d, levelChoice info cl cp = some (false, d) →
       (d ∈ info.functions ∧ d.line ≤ cl) ∧
       (∀ c ∈ info.classes, c.line < cl → c.line ≤ d.line) ∧
       (∀ f ∈ info.functions, f.line ≤ cl → f.line ≤ d.line) ∧
       _IdentifyScope (fuel + 1) info ctx cl cp true =
         _IdentifyScope fuel d (ctx.addFunction d) cl cp true) := by
  obtain ⟨nc, heqc, hc1, hc2, hc3, hc4⟩ := classScan_done_spec cl cp info.classes none hc
  obtain ⟨nf, heqf, hf1, hf2, hf3, hf4⟩ :=
    funcScan_done_spec cl cp nc info.functions none hf
  have hnoClassCand : nc = none → ∀ c ∈ info.classes, ¬ c.line < cl := by
    intro hn c hcm hclt
    have hx := hc2 c hcm hclt
    rw [hn] at hx
    simp only [nearestLineOf] at hx
    omega
  have hnoFuncCand : nc = none → nf = none → ∀ f ∈ info.functions, ¬ f.line ≤ cl := by
    intro hn hn2 f hfm hfle
    have hgt : (f.line : Int) > nearestLineOf nc := by
      rw [hn]; simp only [nearestLineOf]; omega
    have hx := hf2 f hfm hfle hgt
    rw [hn2] at hx
    simp only [nearestLineOf] at hx
    omega
  cases nc with
  | none =>
    cases nf with
    | none =>
      refine ⟨?_, ?_, ?_⟩
      · intro _
        exact ⟨by simp only [_IdentifyScope, heqc, heqf],
               hnoClassCand rfl, hnoFuncCand rfl rfl⟩
      · intro d hd
        simp [levelChoice, heqc, heqf] at hd
      · intro d hd
        simp [levelChoice, heqc, heqf] at hd
    | some f =>
      refine ⟨?_, ?_, ?_⟩
      · intro hd
        simp [levelChoice, heqc, heqf] at hd
      · intro d hd
        simp [levelChoice, heqc, heqf] at hd
      · intro d hd
        simp [levelChoice, heqc, heqf] at hd
        subst hd
        rcases hf1 f rfl with ⟨hm, hle, _⟩ | habs
        · refine ⟨⟨hm, hle⟩, ?_, ?_, by simp only [_IdentifyScope, heqc, heqf]⟩
          · intro c hcm hclt
            exact absurd hclt (hnoClassCand rfl c hcm)
          · intro g hgm hgle
            have hgt : (g.line : Int) > nearestLineOf (none : Option InfoObj) := by
              simp only [nearestLineOf]; omega
            have hx := hf2 g hgm hgle hgt
            simp only [nearestLineOf] at hx
            omega
        · exact absurd habs (by simp)
  | some c =>
    cases nf with
    | none =>
      refine ⟨?_, ?_, ?_⟩
      · intro hd
        simp [levelChoice, heqc, heqf] at hd
      · intro d hd
        simp [levelChoice, heqc, heqf] at hd
        subst hd
        rcases hc1 c rfl with ⟨hm, hlt⟩ | habs
        · refine ⟨⟨hm, hlt⟩, ?_, ?_, by simp only [_IdentifyScope, heqc, heqf]⟩
          · intro x hxm hxlt
            have hx := hc2 x hxm hxlt
            simp only [nearestLineOf] at hx
            omega
          · intro g hgm hgle
            by_cases hgt : (g.line : Int) > nearestLineOf (some c)
            · have hx := hf2 g hgm hgle hgt
              simp only [nearestLineOf] at hx
              omega
            · simp only [nearestLineOf] at hgt
              omega
        · exact absurd habs (by simp)
      · intro d hd
        simp [levelChoice, heqc, heqf] at hd
    | some f =>
      by_cases hcf : (c.line : Int) > (f.line : Int)
      · refine ⟨?_, ?_, ?_⟩
        · intro hd
          simp [levelChoice, heqc, heqf, hcf] at hd
        · intro d hd
          simp [levelChoice, heqc, heqf, hcf] at hd
          subst hd
          rcases hc1 c rfl with ⟨hm, hlt⟩ | habs
          · refine ⟨⟨hm, hlt⟩, ?_, ?_, ?_⟩
            · intro x hxm hxlt
              have hx := hc2 x hxm hxlt
              simp only [nearestLineOf] at hx
              omega
            · intro g hgm hgle
              by_cases hgt : (g.line : Int) > nearestLineOf (some c)
              · have hx := hf2 g hgm hgle hgt
                simp only [nearestLineOf] at hx
                omega
              · simp only [nearestLineOf] at hgt
                omega
            · simp only [_IdentifyScope, heqc, heqf]
              rw [if_pos hcf]
          · exact absurd habs (by simp)
        · intro d hd
          simp [levelChoice, heqc, heqf, hcf] at hd
      · refine ⟨?_, ?_, ?_⟩
        · intro hd
          simp [levelChoice, heqc, heqf, hcf] at hd
        · intro d hd
          simp [levelChoice, heqc, heqf, hcf] at hd
        · intro d hd
          simp [levelChoice, heqc, heqf, hcf] at hd
          subst hd
          rcases hf1 f rfl with ⟨hm, hle, _⟩ | habs
          · refine ⟨⟨hm, hle⟩, ?_, ?_, ?_⟩
            · intro x hxm hxlt
              have hx := hc2 x hxm hxlt
              simp only [nearestLineOf] at hx
              omega
            · intro g hgm hgle
              by_cases hgt : (g.line : Int) > nearestLineOf (some c)
              · have hx := hf2 g hgm hgle hgt
                simp only [nearestLineOf] at hx
                omega
              · simp only [nearestLineOf] at hgt
                omega
            · simp only [_IdentifyScope, heqc, heqf]
              rw [if_neg hcf]
          · exact absurd habs (by simp)

/-- `levels[length - 1]` is the last frame for consistent stacks. -/
theorem get?_pred_length_eq_getLast? {α : Type} (l : List α) :
    l.get? (l.length - 1) = l.getLast? := by
  induction l with
  | nil => rfl
  | cons a t ih =>
    cases t with
    | nil => rfl
    | cons b t2 =>
      rw [show (a :: b :: t2).length - 1 = ((b :: t2).length - 1) + 1 by simp]
      rw [List.get?_cons_succ, ih, List.getLast?_cons_cons]

/-- A completed class loop's result is a recorded candidate or the initial
accumulator (no on-definition-line hypothesis needed: hitting one ends the
loop in `earlyReturn`, not `done`). -/
theorem classScan_done_mem (cl cp : Nat) (sd : Bool) (l : List InfoObj)
    (acc res : Option InfoObj)
    (h : _classScan cl cp sd l acc = ScanRes.done res) :
    ∀ c, res = some c → (c ∈ l ∧ c.line < cl) ∨ acc = some c := by
  induction l generalizing acc with
  | nil =>
    intro c hc
    simp only [_classScan] at h
    injection h with h1
    exact Or.inr (h1 ▸ hc)
  | cons k rest ih =>
    intro c hc
    by_cases hk : _isOnDefinitionLine k cl cp
    · simp only [_classScan, hk, if_true] at h
      split at h <;> exact absurd h (by simp)
    · simp only [_classScan, hk, Bool.false_eq_true, if_false] at h
      by_cases hcond : (k.line : Int) > nearestLineOf acc ∧ k.line < cl
      · rw [if_pos hcond] at h
        rcases ih (some k) h c hc with ⟨hm, hlt⟩ | hacc
        · exact Or.inl ⟨List.mem_cons_of_mem _ hm, hlt⟩
        · injection hacc with hkc
          subst hkc
          exact Or.inl ⟨List.mem_cons_self _ _, hcond.2⟩
      · rw [if_neg hcond] at h
        rcases ih acc h c hc with ⟨hm, hlt⟩ | hacc
        · exact Or.inl ⟨List.mem_cons_of_mem _ hm, hlt⟩
        · exact Or.inr hacc

/-- A completed function loop's result is a recorded candidate or the initial
accumulator. -/
theorem funcScan_done_mem (cl cp : Nat) (sd : Bool) (nc : Option InfoObj)
    (l : List InfoObj) (acc res : Option InfoObj)
    (h : _funcScan cl cp sd nc l acc = ScanRes.done res) :
    ∀ f, res = some f → (f ∈ l ∧ f.line ≤ cl) ∨ acc = some f := by
  induction l generalizing acc with
  | nil =>
    intro f hf
    simp only [_funcScan] at h
    injection h with h1
    exact Or.inr (h1 ▸ hf)
  | cons g rest ih =>
    intro f hf
    by_cases hg : _isOnDefinitionLine g cl cp
    · simp only [_funcScan, hg, if_true] at h
      split at h <;> exact absurd h (by simp)
    · simp only [_funcScan, hg, Bool.false_eq_true, if_false] at h
      by_cases hcond : (g.line : Int) > nearestLineOf nc ∧
          (g.line : Int) > nearestLineOf acc ∧ g.line ≤ cl
      · rw [if_pos hcond] at h
        rcases ih (some g) h f hf with ⟨hm, hle⟩ | hacc
        · exact Or.inl ⟨List.mem_cons_of_mem _ hm, hle⟩
        · injection hacc with hgf
          subst hgf
          exact Or.inl ⟨List.mem_cons_self _ _, hcond.2.2⟩
      · rw [if_neg hcond] at h
        rcases ih acc h f hf with ⟨hm, hle⟩ | hacc
        · exact Or.inl ⟨List.mem_cons_of_mem _ hm, hle⟩
        · exact Or.inr hacc

/-- When no nested definition of `f` starts at or before the cursor line, one
step of the walk inside `f` leaves the context unchanged (possibly via an
early return on a nested definition line). -/
theorem identifyScope_no_inner (fuel : Nat) (f : InfoObj) (ctx : TextCursorContext)
    (cl cp : Nat)
    (h1 : ∀ c ∈ f.classes, ¬ c.line < cl)
    (h2 : ∀ g ∈ f.functions, ¬ g.line ≤ cl) :
    _IdentifyScope (fuel + 1) f ctx cl cp true = ctx := by
  cases hsc : _classScan cl cp true f.classes none with
  | earlyReturn t =>
    have ht := classScan_earlyReturn_none cl cp f.classes none t hsc
    subst ht
    simp [_IdentifyScope, hsc]
  | done nc =>
    have hnc : nc = none := by
      cases nc with
      | none => rfl
      | some c =>
        rcases classScan_done_mem cl cp true f.classes none (some c) hsc c rfl with
          ⟨hm, hlt⟩ | habs
        · exact absurd hlt (h1 c hm)
        · simp at habs
    subst hnc
    cases hsf : _funcScan cl cp true none f.functions none with
    | earlyReturn t =>
      have ht := funcScan_earlyReturn_none cl cp none f.functions none t hsf
      subst ht
      simp [_IdentifyScope, hsc, hsf]
    | done nf =>
      have hnf : nf = none := by
        cases nf with
        | none => rfl
        | some g =>
          rcases funcScan_done_mem cl cp true none f.functions none (some g) hsf g rfl with
            ⟨hm, hle⟩ | habs
          · exact absurd hle (h2 g hm)
          · simp at habs
      subst hnf
      simp [_IdentifyScope, hsc, hsf]

/-- Pushing a function frame appends `(f, kind)` where the kind is
`ClassMethodScope` exactly when the previous top frame is a class frame. -/
theorem addFunction_last_frame (ctx : TextCursorContext) (f : InfoObj)
    (hctx : ctx.length = ctx.levels.length) :
    ∃ k, (ctx.addFunction f).levels = ctx.levels ++ [(f, k)] ∧
      (k = ScopeType.ClassMethodScope ↔
        ∃ c, ctx.levels.getLast? = some (c, ScopeType.ClassScope)) ∧
      (k = ScopeType.ClassMethodScope ∨ k = ScopeType.FunctionScope) := by
  unfold TextCursorContext.addFunction
  by_cases hz : ctx.length = 0
  · have hnil : ctx.levels = [] := List.length_eq_zero.mp (by omega)
    rw [if_pos hz]
    refine ⟨ScopeType.FunctionScope, rfl, ?_, Or.inr rfl⟩
    rw [hnil]
    simp
  · rw [if_neg hz]
    have hget : ctx.levels.get? (ctx.length - 1) = ctx.levels.getLast? := by
      rw [hctx]
      exact get?_pred_length_eq_getLast? ctx.levels
    rw [hget]
    cases hval : ctx.levels.getLast? with
    | none =>
      exfalso
      have hne : ctx.levels ≠ [] := by
        intro hnil
        rw [hnil] at hctx
        simp at hctx
        omega
      exact hne (List.getLast?_eq_none_iff.mp hval)
    | some lv =>
      obtain ⟨o, st⟩ := lv
      cases st with
      | GlobalScope =>
        refine ⟨ScopeType.FunctionScope, rfl, ?_, Or.inr rfl⟩
        simp [hval]
      | FunctionScope =>
        refine ⟨ScopeType.FunctionScope, rfl, ?_, Or.inr rfl⟩
        simp [hval]
      | ClassScope =>
        refine ⟨ScopeType.ClassMethodScope, rfl, ?_, Or.inl rfl⟩
        simp [hval]
      | ClassMethodScope =>
        refine ⟨ScopeType.FunctionScope, rfl, ?_, Or.inr rfl⟩
        simp [hval]

/-- C1 counterexample: the claim's candidate condition ("within the
definition-line span or keyword line strictly less than the cursor line")
fails on the code: for a function on line 5 with its colon at column 10 and
the cursor at `(5, 20)` — same line, past the colon — the walk still
descends into the function and pushes it, although the cursor is not within
its definition-line span and its line is not strictly less than the cursor
line. -/
theorem identifyScope_strictly_less_counterexample :
    (_IdentifyScope 2 (InfoObj.mk 0 0 0 0 [] [] [InfoObj.mk 5 5 5 10 [] [] []])
        TextCursorContext.empty 5 20 true).levels =
      [(InfoObj.mk 5 5 5 10 [] [] [], ScopeType.FunctionScope)] ∧
    _isOnDefinitionLine (InfoObj.mk 5 5 5 10 [] [] []) 5 20 = false ∧
    ¬ (InfoObj.mk 5 5 5 10 [] [] []).line < 5 :=
  ⟨rfl, rfl, by decide⟩

/-- C1 (amended): with no definition at the current nesting level on its
definition line, the walk considers a class a candidate only if its keyword
line is strictly less than the cursor line, and a function only if its
keyword line is less than **or equal to** the cursor line; among the
candidates the one with the greatest keyword line is chosen and descended
into recursively, and with no candidate the level leaves the context
unchanged. -/
theorem identifyScope_candidate_selection (fuel : Nat) (info : InfoObj)
    (ctx : TextCursorContext) (cl cp : Nat)
    (hc : ∀ c ∈ info.classes, _isOnDefinitionLine c cl cp = false)
    (hf : ∀ f ∈ info.functions, _isOnDefinitionLine f cl cp = false) :
    (levelChoice info cl cp = none →
       _IdentifyScope (fuel + 1) info ctx cl cp true = ctx ∧
       (∀ c ∈ info.classes, ¬ c.line < cl) ∧
       (∀ f ∈ info.functions, ¬ f.line ≤ cl)) ∧
    (∀ d, levelChoice info cl cp = some (true, d) →
       (d ∈ info.classes ∧ d.line < cl) ∧
       (∀ c ∈ info.classes, c.line < cl → c.line ≤ d.line) ∧
       (∀ f ∈ info.functions, f.line ≤ cl → f.line ≤ d.line) ∧
       _IdentifyScope (fuel + 1) info ctx cl cp true =
         _IdentifyScope fuel d (ctx.addClass d) cl cp true) ∧
    (∀ d, levelChoice info cl cp = some (false, d) →
       (d ∈ info.functions ∧ d.line ≤ cl) ∧
       (∀ c ∈ info.classes, c.line < cl → c.line ≤ d.line) ∧
       (∀ f ∈ info.functions, f.line ≤ cl → f.line ≤ d.line) ∧
       _IdentifyScope (fuel + 1) info ctx cl cp true =
         _IdentifyScope fuel d (ctx.addFunction d) cl cp true) :=
  identifyScope_level_aux fuel info ctx cl cp hc hf

/-- Witness for `identifyScope_candidate_selection`: class `A` on line 1 and
function `g` on line 5, cursor on line 3 — the class is chosen and the walk
descends into it. -/
theorem identifyScope_candidate_selection_witness :
    (exClassA ∈ exModule.classes ∧ exClassA.line < 3) ∧
    (∀ c ∈ exModule.classes, c.line < 3 → c.line ≤ exClassA.line) ∧
    (∀ f ∈ exModule.functions, f.line ≤ 3 → f.line ≤ exClassA.line) ∧
    _IdentifyScope 2 exModule TextCursorContext.empty 3 0 true =
      _IdentifyScope 1 exClassA (TextCursorContext.empty.addClass exClassA) 3 0 true :=
  (identifyScope_candidate_selection 1 exModule TextCursorContext.empty 3 0
      (by decide) (by decide)).2.1 exClassA rfl

/-- C2: when the walk at the current level selects the function `f` (all
definitions at the level off their definition lines) and no nested
definition of `f` starts at or before the cursor line, the resolver's stack
ends with a frame for `f`, whose scope kind is `ClassMethodScope` exactly
when the frame immediately above it is a class frame and `FunctionScope`
otherwise. -/
theorem resolver_function_last_frame (fuel : Nat) (info f : InfoObj)
    (ctx : TextCursorContext) (cl cp : Nat)
    (hctx : ctx.length = ctx.levels.length)
    (hc : ∀ c ∈ info.classes, _isOnDefinitionLine c cl cp = false)
    (hf : ∀ g ∈ info.functions, _isOnDefinitionLine g cl cp = false)
    (hsel : levelChoice info cl cp = some (false, f))
    (hin1 : ∀ c ∈ f.classes, ¬ c.line < cl)
    (hin2 : ∀ g ∈ f.functions, ¬ g.line ≤ cl) :
    _IdentifyScope (fuel + 2) info ctx cl cp true = ctx.addFunction f ∧
    ∃ k, (ctx.addFunction f).levels = ctx.levels ++ [(f, k)] ∧
      (k = ScopeType.ClassMethodScope ↔
        ∃ c, ctx.levels.getLast? = some (c, ScopeType.ClassScope)) ∧
      (k = ScopeType.ClassMethodScope ∨ k = ScopeType.FunctionScope) := by
  have hstep := (identifyScope_level_aux (fuel + 1) info ctx cl cp hc hf).2.2 f hsel
  have hinner := identifyScope_no_inner fuel f (ctx.addFunction f) cl cp hin1 hin2
  refine ⟨?_, addFunction_last_frame ctx f hctx⟩
  calc _IdentifyScope (fuel + 2) info ctx cl cp true
      = _IdentifyScope (fuel + 1) f (ctx.addFunction f) cl cp true := hstep.2.2.2
    _ = ctx.addFunction f := hinner

/-- Witness for `resolver_function_last_frame`: the spec's own example —
`class A:` on line 1 with `def m(self):` on line 2, cursor at `(3, 5)`
inside `m`; at the class level, with the class frame already on the stack,
the walk pushes `(m, ClassMethodScope)`. -/
theorem resolver_function_last_frame_witness :
    _IdentifyScope 3 exClassWithM
        ⟨[(exClassWithM, ScopeType.ClassScope)], 1⟩ 3 5 true =
      TextCursorContext.addFunction
        ⟨[(exClassWithM, ScopeType.ClassScope)], 1⟩ exMethodM ∧
    ∃ k, (TextCursorContext.addFunction
            ⟨[(exClassWithM, ScopeType.ClassScope)], 1⟩ exMethodM).levels =
        [(exClassWithM, ScopeType.ClassScope)] ++ [(exMethodM, k)] ∧
      (k = ScopeType.ClassMethodScope ↔
        ∃ c, [(exClassWithM, ScopeType.ClassScope)].getLast? =
          some (c, ScopeType.ClassScope)) ∧
      (k = ScopeType.ClassMethodScope ∨ k = ScopeType.FunctionScope) :=
  resolver_function_last_frame 1 exClassWithM exMethodM
    ⟨[(exClassWithM, ScopeType.ClassScope)], 1⟩ 3 5 rfl
    (by decide) (by decide) rfl (by decide) (by decide)

/-- `pyStrip` is idempotent, so a pre-stripped string parses like the raw
one (`int(part.strip())` equals `int(part)`). -/
theorem pyStrip_idempotent (s : PyStr) : pyStrip (pyStrip s) = pyStrip s := by
  show pyLStrip (pyRStrip (pyLStrip (pyRStrip s))) = pyLStrip (pyRStrip s)
  have hrw : ∀ t : PyStr, pyRStrip t = List.rdropWhile pyIsSpaceChar t := fun t => rfl
  rw [hrw, hrw]
  unfold pyLStrip
  by_cases hv : (List.rdropWhile pyIsSpaceChar s).dropWhile pyIsSpaceChar = []
  · rw [hv]
    simp [List.rdropWhile_nil]
  · have hune : List.rdropWhile pyIsSpaceChar s ≠ [] := by
      intro h0
      rw [h0] at hv
      exact hv rfl
    obtain ⟨w, hw⟩ :=
      List.dropWhile_suffix (l := List.rdropWhile pyIsSpaceChar s) pyIsSpaceChar
    have hlast : ((List.rdropWhile pyIsSpaceChar s).dropWhile pyIsSpaceChar).getLast? =
        (List.rdropWhile pyIsSpaceChar s).getLast? := by
      conv_rhs => rw [← hw]
      exact (List.getLast?_append_of_ne_nil w hv).symm
    have hself : List.rdropWhile pyIsSpaceChar
        ((List.rdropWhile pyIsSpaceChar s).dropWhile pyIsSpaceChar) =
        (List.rdropWhile pyIsSpaceChar s).dropWhile pyIsSpaceChar := by
      rw [List.rdropWhile_eq_self_iff]
      intro hl
      have hnot := List.rdropWhile_last_not pyIsSpaceChar s hune
      have h2 := List.getLast?_eq_getLast_of_ne_nil hl
      have h3 := List.getLast?_eq_getLast_of_ne_nil hune
      rw [hlast, h3] at h2
      injection h2 with h4
      rw [← h4]
      exact hnot
    rw [hself, List.dropWhile_idempotent]

/-- `int()` strips, so explicit stripping does not change the result. -/
theorem pyInt_pyStrip (digitVal : Char → Option Nat) (base : Nat) (s : PyStr) :
    pyInt digitVal base (pyStrip s) = pyInt digitVal base s := by
  unfold pyInt
  rw [pyStrip_idempotent]

/-- Every character consumed by a successful `digitsVal` run is a digit. -/
theorem digitsVal_mem_isSome (digitVal : Char → Option Nat) (base : Nat) :
    ∀ (s : PyStr) (acc : Option Nat) (v : Nat), digitsVal digitVal base s acc = some v →
      ∀ c ∈ s, (digitVal c).isSome := by
  intro s
  induction s with
  | nil =>
    intro acc v _ c hc
    simp at hc
  | cons a t ih =>
    intro acc v h c hc
    simp only [digitsVal] at h
    cases hdv : digitVal a with
    | none =>
      rw [hdv] at h
      simp at h
    | some w =>
      rw [hdv] at h
      rcases List.mem_cons.mp hc with rfl | hmem
      · simp [hdv]
      · exact ih _ _ h c hmem

/-- A list member is whitespace or survives `dropWhile`. -/
theorem mem_dropWhile_or_pred (p : Char → Bool) (s : PyStr) (c : Char) (hc : c ∈ s) :
    p c = true ∨ c ∈ s.dropWhile p := by
  induction s with
  | nil => simp at hc
  | cons a t ih =>
    by_cases ha : p a
    · rcases List.mem_cons.mp hc with rfl | hmem
      · exact Or.inl ha
      · rw [List.dropWhile_cons_of_pos ha]
        exact ih hmem
    · rw [List.dropWhile_cons_of_neg ha]
      exact Or.inr hc

/-- A list member is whitespace or survives `pyStrip`. -/
theorem mem_pyStrip_or_space (s : PyStr) (c : Char) (hc : c ∈ s) :
    pyIsSpaceChar c = true ∨ c ∈ pyStrip s := by
  have h1 : pyIsSpaceChar c = true ∨ c ∈ pyRStrip s := by
    have hrev : c ∈ s.reverse := List.mem_reverse.mpr hc
    rcases mem_dropWhile_or_pred pyIsSpaceChar s.reverse c hrev with hp | hmem
    · exact Or.inl hp
    · exact Or.inr (List.mem_reverse.mpr hmem)
  rcases h1 with hp | hmem
  · exact Or.inl hp
  · exact mem_dropWhile_or_pred pyIsSpaceChar (pyRStrip s) c hmem

/-- Every character of a string `int()` accepts is whitespace, a sign, or a
digit of the base. -/
theorem pyInt_char_class (digitVal : Char → Option Nat) (base : Nat) (s : PyStr)
    (v : Int) (h : pyInt digitVal base s = some v) :
    ∀ c ∈ s, pyIsSpaceChar c = true ∨ c = '+' ∨ c = '-' ∨ (digitVal c).isSome := by
  intro c hc
  rcases mem_pyStrip_or_space s c hc with hsp | hmem
  · exact Or.inl hsp
  · unfold pyInt at h
    cases hps : pyStrip s with
    | nil =>
      rw [hps] at hmem
      simp at hmem
    | cons a t =>
      rw [hps] at h hmem
      simp only [pyIntCore] at h
      by_cases ha : a = '+'
      · rw [if_pos ha] at h
        rcases List.mem_cons.mp hmem with rfl | hmem2
        · exact Or.inr (Or.inl ha)
        · cases hd : digitsVal digitVal base t none with
          | none => rw [hd] at h; simp at h
          | some n =>
            exact Or.inr (Or.inr (Or.inr
              (digitsVal_mem_isSome digitVal base t none n hd c hmem2)))
      · rw [if_neg ha] at h
        by_cases hb : a = '-'
        · rw [if_pos hb] at h
          rcases List.mem_cons.mp hmem with rfl | hmem2
          · exact Or.inr (Or.inr (Or.inl hb))
          · cases hd : digitsVal digitVal base t none with
            | none => rw [hd] at h; simp at h
            | some n =>
              exact Or.inr (Or.inr (Or.inr
                (digitsVal_mem_isSome digitVal base t none n hd c hmem2)))
        · rw [if_neg hb] at h
          cases hd : digitsVal digitVal base (a :: t) none with
          | none => rw [hd] at h; simp at h
          | some n =>
            exact Or.inr (Or.inr (Or.inr
              (digitsVal_mem_isSome digitVal base (a :: t) none n hd c hmem)))

/-- A string `int()` accepts in base 10 is non-empty. -/
theorem pyInt_ne_nil (digitVal : Char → Option Nat) (base : Nat) (v : Int)
    (h : pyInt digitVal base [] = some v) : False := by
  simp [pyInt, pyStrip, pyLStrip, pyRStrip, pyIntCore] at h

/-- `splitOnChar` never yields the empty list of parts. -/
theorem splitOnChar_ne_nil (sep : Char) (s : PyStr) : splitOnChar sep s ≠ [] := by
  cases s with
  | nil => simp [splitOnChar]
  | cons c rest =>
    by_cases hc : c = sep
    · simp [splitOnChar, hc]
    · simp only [splitOnChar, hc, if_false]
      cases hsp : splitOnChar sep rest with
      | nil => simp
      | cons p ps => simp

/-- Splitting at the first separator when the head part has none. -/
theorem splitOnChar_append (sep : Char) (p1 rest : PyStr) (h : sep ∉ p1) :
    splitOnChar sep (p1 ++ sep :: rest) = p1 :: splitOnChar sep rest := by
  induction p1 with
  | nil => simp [splitOnChar]
  | cons c t ih =>
    have hc : ¬ c = sep := fun h0 => h (h0 ▸ List.mem_cons_self _ _)
    have ht : sep ∉ t := fun h0 => h (List.mem_cons_of_mem _ h0)
    simp only [List.cons_append, splitOnChar, hc, if_false, List.append_eq]
    rw [ih ht]

/-- A separator-free string splits into itself alone. -/
theorem splitOnChar_no_sep (sep : Char) (s : PyStr) (h : sep ∉ s) :
    splitOnChar sep s = [s] := by
  induction s with
  | nil => rfl
  | cons c t ih =>
    have hc : ¬ c = sep := fun h0 => h (h0 ▸ List.mem_cons_self _ _)
    have ht : sep ∉ t := fun h0 => h (List.mem_cons_of_mem _ h0)
    simp only [splitOnChar, hc, if_false]
    rw [ih ht]

/-- `"#"` is not a prefix of a string starting with another character. -/
theorem hash_not_prefix (c : Char) (t : PyStr) (hc : c ≠ '#') :
    "#".data.isPrefixOf (c :: t) = false := by
  show List.isPrefixOf ['#'] (c :: t) = false
  simp only [List.isPrefixOf, List.isPrefixOf_nil_left, Bool.and_true]
  exact beq_false_of_ne (fun h => hc h.symm)

/-- The decimal `try` body fails whenever some channel is out of range. -/
theorem readDecColor_out_of_range (p1 p2 p3 : PyStr) (v1 v2 v3 : Int)
    (h1 : pyInt decDigitVal 10 p1 = some v1)
    (h2 : pyInt decDigitVal 10 p2 = some v2)
    (h3 : pyInt decDigitVal 10 p3 = some v3)
    (hout : v1 < 0 ∨ 255 < v1 ∨ v2 < 0 ∨ 255 < v2 ∨ v3 < 0 ∨ 255 < v3) :
    readDecColor [p1, p2, p3] = none := by
  have h1' : pyInt decDigitVal 10 (pyStrip p1) = some v1 := by
    rw [pyInt_pyStrip]; exact h1
  have h2' : pyInt decDigitVal 10 (pyStrip p2) = some v2 := by
    rw [pyInt_pyStrip]; exact h2
  have h3' : pyInt decDigitVal 10 (pyStrip p3) = some v3 := by
    rw [pyInt_pyStrip]; exact h3
  by_cases r1 : colorInRange v1
  · by_cases r2 : colorInRange v2
    · by_cases r3 : colorInRange v3
      · exfalso
        simp only [colorInRange, Bool.not_eq_true', Bool.or_eq_false_iff,
          decide_eq_false_iff_not, not_lt] at r1 r2 r3
        omega
      · simp [readDecColor, h1', h2', h3', r1, r2, r3]
    · simp [readDecColor, h1', h2', r1, r2]
  · simp [readDecColor, h1', r1]

/-- C5: `readColor` maps a hexadecimal spec and the decimal spec with the same
channel values to the same color (`#aabbcc` equals `170,187,204`),
`#ff000080` yields RGBA `(255, 0, 0, 128)`, and every decimal spec whose
three parts parse as integers with some channel outside `[0, 255]` (such as
`300,0,0`), as well as a malformed spec, raises a descriptive format
error. -/
theorem readColor_spec :
    readColor "#aabbcc".data = .ok ⟨170, 187, 204, 255⟩ ∧
    readColor "170,187,204".data = .ok ⟨170, 187, 204, 255⟩ ∧
    readColor "#ff000080".data = .ok ⟨255, 0, 0, 128⟩ ∧
    readColor "300,0,0".data =
      .error ("Invalid decimal color format: ".data ++ "300,0,0".data) ∧
    readColor "#ab".data =
      .error ("Invalid hexadecimal color format: #".data ++ "ab".data) ∧
    (∀ (p1 p2 p3 : PyStr) (v1 v2 v3 : Int),
      pyInt decDigitVal 10 p1 = some v1 →
      pyInt decDigitVal 10 p2 = some v2 →
      pyInt decDigitVal 10 p3 = some v3 →
      (v1 < 0 ∨ 255 < v1 ∨ v2 < 0 ∨ 255 < v2 ∨ v3 < 0 ∨ 255 < v3) →
      readColor (p1 ++ ',' :: (p2 ++ ',' :: p3)) =
        .error ("Invalid decimal color format: ".data ++
          (p1 ++ ',' :: (p2 ++ ',' :: p3)))) := by
  refine ⟨rfl, rfl, rfl, rfl, rfl, ?_⟩
  intro p1 p2 p3 v1 v2 v3 h1 h2 h3 hout
  have hchars1 := pyInt_char_class decDigitVal 10 p1 v1 h1
  have hchars2 := pyInt_char_class decDigitVal 10 p2 v2 h2
  have hchars3 := pyInt_char_class decDigitVal 10 p3 v3 h3
  have hnotdigit : ∀ c : Char, c = ',' ∨ c = '#' →
      ¬ (pyIsSpaceChar c = true ∨ c = '+' ∨ c = '-' ∨ (decDigitVal c).isSome) := by
    intro c hcc
    rcases hcc with rfl | rfl <;>
      · rintro (h | h | h | h) <;> simp [pyIsSpaceChar, decDigitVal] at h
  have hnc1 : ',' ∉ p1 := fun hm => hnotdigit ',' (Or.inl rfl) (hchars1 ',' hm)
  have hnc2 : ',' ∉ p2 := fun hm => hnotdigit ',' (Or.inl rfl) (hchars2 ',' hm)
  have hnc3 : ',' ∉ p3 := fun hm => hnotdigit ',' (Or.inl rfl) (hchars3 ',' hm)
  obtain ⟨c0, p1', rfl⟩ : ∃ c0 p1', p1 = c0 :: p1' := by
    cases p1 with
    | nil => exact absurd h1 (fun h => pyInt_ne_nil decDigitVal 10 v1 h)
    | cons c0 p1' => exact ⟨c0, p1', rfl⟩
  have hc0 : c0 ≠ '#' := fun h0 =>
    hnotdigit '#' (Or.inr rfl) (h0 ▸ hchars1 c0 (List.mem_cons_self _ _))
  have hpref : "#".data.isPrefixOf ((c0 :: p1') ++ ',' :: (p2 ++ ',' :: p3)) = false := by
    rw [List.cons_append]
    exact hash_not_prefix c0 _ hc0
  have hsplit : splitOnChar ',' ((c0 :: p1') ++ ',' :: (p2 ++ ',' :: p3)) =
      [c0 :: p1', p2, p3] := by
    rw [splitOnChar_append ',' _ _ hnc1, splitOnChar_append ',' _ _ hnc2,
      splitOnChar_no_sep ',' p3 hnc3]
  have hdec := readDecColor_out_of_range (c0 :: p1') p2 p3 v1 v2 v3 h1 h2 h3 hout
  simp only [readColor, hpref, Bool.false_eq_true, if_false, hsplit, hdec]
  simp

/-- Witness for `readColor_spec`: the out-of-range clause at the spec's own
example `300,0,0`. -/
theorem readColor_spec_witness :
    readColor ("300".data ++ ',' :: ("0".data ++ ',' :: "0".data)) =
      .error ("Invalid decimal color format: ".data ++
        ("300".data ++ ',' :: ("0".data ++ ',' :: "0".data))) :=
  readColor_spec.2.2.2.2.2 "300".data "0".data "0".data 300 0 0 rfl rfl rfl
    (by norm_num)

/-- C4: `validateCMLList` never raises on comments with at least one part:
every comment whose directive code is unknown or whose typed construction
fails (including a declared version above the supported version 1) stays
unconverted and contributes exactly one `(line, column, message)` warning
taken from its first part, while every valid comment is replaced in place
by its typed annotation. -/
theorem validateCMLList_spec (cs : List RawCML) (h : ∀ c ∈ cs, c.parts ≠ []) :
    validateCMLList cs = .ok
      (cs.map (fun c =>
        match buildAnnot c with
        | some (.ok a) => (.inr a : RawCML ⊕ CMLAnnot)
        | _ => .inl c),
       cs.filterMap (fun c =>
        match buildAnnot c, c.parts with
        | some (.ok _), _ => none
        | some (.error e), p :: _ =>
            some ((p.beginLine, p.beginPos,
              "Invalid CML comment: ".data ++ e) : CMLWarning)
        | none, p :: _ =>
            some (p.beginLine, p.beginPos,
              "CML comment type '".data ++ c.recordType ++ "' is not supported".data)
        | _, [] => none)) ∧
    (∀ c : RawCML, (c.recordType = "sw".data ∨ c.recordType = "cc".data ∨
        c.recordType = "rt".data) → c.version > 1 →
      ∃ e, buildAnnot c = some (Except.error e)) := by
  constructor
  · induction cs with
    | nil => rfl
    | cons c rest ih =>
      have hpc : c.parts ≠ [] := h c (List.mem_cons_self _ _)
      have hrest := ih (fun x hx => h x (List.mem_cons_of_mem _ hx))
      obtain ⟨p, ps, hp⟩ : ∃ p ps, c.parts = p :: ps := by
        cases hcp : c.parts with
        | nil => exact absurd hcp hpc
        | cons p ps => exact ⟨p, ps, rfl⟩
      cases hba : buildAnnot c with
      | none =>
        simp only [validateCMLList, validateCMLOne, hba, cmlPart0, hp,
          List.map_cons, List.filterMap_cons, hrest]
        rfl
      | some ea =>
        cases ea with
        | ok a =>
          simp only [validateCMLList, validateCMLOne, hba,
            List.map_cons, List.filterMap_cons, hrest]
          rfl
        | error e =>
          simp only [validateCMLList, validateCMLOne, hba, cmlPart0, hp,
            List.map_cons, List.filterMap_cons, hrest]
          rfl
  · intro c hknown hver
    have hv : cmlValidateVersion c = .error
        ("The CML comment version ".data ++ natToChars c.version ++
         " is not supported. Max supported version is ".data ++
         natToChars cmlSupportedVersion) := by
      unfold cmlValidateVersion
      have hver2 : c.version > cmlSupportedVersion := hver
      rw [if_pos hver2]
    rcases hknown with hk | hk | hk
    · refine ⟨"The CML comment version ".data ++ natToChars c.version ++
        " is not supported. Max supported version is ".data ++
        natToChars cmlSupportedVersion, ?_⟩
      have hrt : cmlValidateRecordType c "sw".data = .ok () := by
        unfold cmlValidateRecordType
        rw [if_neg (fun hne => hne hk)]
      have hb : buildCMLsw c = Except.error
          ("The CML comment version ".data ++ natToChars c.version ++
           " is not supported. Max supported version is ".data ++
           natToChars cmlSupportedVersion) := by
        unfold buildCMLsw
        rw [hrt, hv]
        rfl
      unfold buildAnnot
      rw [if_pos hk, hb]
    · refine ⟨"The CML comment version ".data ++ natToChars c.version ++
        " is not supported. Max supported version is ".data ++
        natToChars cmlSupportedVersion, ?_⟩
      have hrt : cmlValidateRecordType c "cc".data = .ok () := by
        unfold cmlValidateRecordType
        rw [if_neg (fun hne => hne hk)]
      have hb : buildCMLcc c = Except.error
          ("The CML comment version ".data ++ natToChars c.version ++
           " is not supported. Max supported version is ".data ++
           natToChars cmlSupportedVersion) := by
        unfold buildCMLcc
        rw [hrt, hv]
        rfl
      unfold buildAnnot
      rw [if_neg (show ¬ c.recordType = "sw".data by rw [hk]; decide),
        if_pos hk, hb]
    · refine ⟨"The CML comment version ".data ++ natToChars c.version ++
        " is not supported. Max supported version is ".data ++
        natToChars cmlSupportedVersion, ?_⟩
      have hrt : cmlValidateRecordType c "rt".data = .ok () := by
        unfold cmlValidateRecordType
        rw [if_neg (fun hne => hne hk)]
      have hb : buildCMLrt c = Except.error
          ("The CML comment version ".data ++ natToChars c.version ++
           " is not supported. Max supported version is ".data ++
           natToChars cmlSupportedVersion) := by
        unfold buildCMLrt
        rw [hrt, hv]
        rfl
      unfold buildAnnot
      rw [if_neg (show ¬ c.recordType = "sw".data by rw [hk]; decide),
        if_neg (show ¬ c.recordType = "cc".data by rw [hk]; decide),
        if_pos hk, hb]

/-- Witness for `validateCMLList_spec` on a concrete list holding a valid
`sw` comment, an unknown directive, a version-2 directive and a `cc`
comment without colors. -/
theorem validateCMLList_spec_witness :
    validateCMLList [exCMLsw, exCMLunknown, exCMLv2, exCMLccBad] = .ok
      ([exCMLsw, exCMLunknown, exCMLv2, exCMLccBad].map (fun c =>
        match buildAnnot c with
        | some (.ok a) => (.inr a : RawCML ⊕ CMLAnnot)
        | _ => .inl c),
       [exCMLsw, exCMLunknown, exCMLv2, exCMLccBad].filterMap (fun c =>
        match buildAnnot c, c.parts with
        | some (.ok _), _ => none
        | some (.error e), p :: _ =>
            some ((p.beginLine, p.beginPos,
              "Invalid CML comment: ".data ++ e) : CMLWarning)
        | none, p :: _ =>
            some (p.beginLine, p.beginPos,
              "CML comment type '".data ++ c.recordType ++ "' is not supported".data)
        | _, [] => none)) ∧
    (∀ c : RawCML, (c.recordType = "sw".data ∨ c.recordType = "cc".data ∨
        c.recordType = "rt".data) → c.version > 1 →
      ∃ e, buildAnnot c = some (Except.error e)) :=
  validateCMLList_spec [exCMLsw, exCMLunknown, exCMLv2, exCMLccBad]
    (by intro c hc; fin_cases hc <;> decide)

/-- The loop of `isNestedInSelected` is total (given computable spans for the
`TOP_LEFT` scope cells) and returns true exactly when some selected
`TOP_LEFT` scope cell's visual span contains the candidate's span. -/
theorem isNestedScanSel_spec (tb te : Nat) (sel : List SceneItem)
    (hs : ∀ it ∈ sel, it.scopedItem = true → it.subKind = SubKind.TOP_LEFT →
      (visualBeginEnd it).isSome) :
    ∃ b, isNestedScanSel tb te sel = some b ∧
      (b = true ↔ ∃ it ∈ sel, it.scopedItem = true ∧ it.subKind = SubKind.TOP_LEFT ∧
        ∃ ib ie, visualBeginEnd it = some (ib, ie) ∧ ib ≤ tb ∧ te ≤ ie) := by
  induction sel with
  | nil =>
    refine ⟨false, rfl, ?_⟩
    simp
  | cons it rest ih =>
    obtain ⟨b, heq, hiff⟩ := ih (fun x hx => hs x (List.mem_cons_of_mem _ hx))
    by_cases h1 : it.scopedItem
    · by_cases h2 : it.subKind = SubKind.TOP_LEFT
      · obtain ⟨pr, hbe⟩ := Option.isSome_iff_exists.mp
          (hs it (List.mem_cons_self _ _) h1 h2)
        obtain ⟨ib, ie⟩ := pr
        by_cases h3 : tb ≥ ib ∧ te ≤ ie
        · refine ⟨true, ?_, ?_⟩
          · simp only [isNestedScanSel, h1, not_true_eq_false, if_false, h2,
              ne_eq, not_true_eq_false, hbe]
            rw [if_pos h3]
          · simp only [true_iff]
            exact ⟨it, List.mem_cons_self _ _, h1, h2, ib, ie, hbe, h3.1, h3.2⟩
        · refine ⟨b, ?_, ?_⟩
          · simp only [isNestedScanSel, h1, not_true_eq_false, if_false, h2,
              ne_eq, not_true_eq_false, hbe]
            rw [if_neg h3]
            exact heq
          · rw [hiff]
            constructor
            · rintro ⟨x, hx, rest_props⟩
              exact ⟨x, List.mem_cons_of_mem _ hx, rest_props⟩
            · rintro ⟨x, hx, hsc, hsk, ib', ie', hbe', hb1, hb2⟩
              rcases List.mem_cons.mp hx with rfl | hx2
              · rw [hbe] at hbe'
                injection hbe' with hpair
                cases hpair
                exact absurd ⟨hb1, hb2⟩ h3
              · exact ⟨x, hx2, hsc, hsk, ib', ie', hbe', hb1, hb2⟩
      · refine ⟨b, ?_, ?_⟩
        · simp only [isNestedScanSel, h1, not_true_eq_false, if_false, ne_eq, h2,
            not_false_eq_true, if_true]
          exact heq
        · rw [hiff]
          constructor
          · rintro ⟨x, hx, rest_props⟩
            exact ⟨x, List.mem_cons_of_mem _ hx, rest_props⟩
          · rintro ⟨x, hx, hsc, hsk, hrest⟩
            rcases List.mem_cons.mp hx with rfl | hx2
            · exact absurd hsk h2
            · exact ⟨x, hx2, hsc, hsk, hrest⟩
    · refine ⟨b, ?_, ?_⟩
      · simp only [isNestedScanSel, h1]
        simp only [Bool.false_eq_true, not_false_eq_true, if_true]
        exact heq
      · rw [hiff]
        constructor
        · rintro ⟨x, hx, rest_props⟩
          exact ⟨x, List.mem_cons_of_mem _ hx, rest_props⟩
        · rintro ⟨x, hx, hsc, hsk, hrest⟩
          rcases List.mem_cons.mp hx with rfl | hx2
          · rw [hsc] at h1
            exact absurd rfl h1
          · exact ⟨x, hx2, hsc, hsk, hrest⟩

/-- C6: `isNestedInSelected` never fails on well-formed scenes and returns
true exactly when some selected item is a `TOP_LEFT` scope cell whose
visual `[begin, end]` span fully contains the candidate's span; a file
scope's span runs from its docstring's begin (or its body begin without a
docstring) to its body end, and a try/for/while scope's span ends at its
last suite item's end rather than the scope's own end. -/
theorem isNestedInSelected_spec (cand : SceneItem) (sel : List SceneItem)
    (tb te : Nat) (hc : visualBeginEnd cand = some (tb, te))
    (hs : ∀ it ∈ sel, it.scopedItem = true → it.subKind = SubKind.TOP_LEFT →
      (visualBeginEnd it).isSome) :
    (∃ b, isNestedInSelected cand sel = some b) ∧
    (isNestedInSelected cand sel = some true ↔
      ∃ it ∈ sel, it.scopedItem = true ∧ it.subKind = SubKind.TOP_LEFT ∧
        ∃ ib ie, visualBeginEnd it = some (ib, ie) ∧ ib ≤ tb ∧ te ≤ ie) ∧
    (∀ it : SceneItem, it.scopedItem = true → it.subKind = SubKind.TOP_LEFT →
      it.kind = CellKind.FILE_SCOPE →
      visualBeginEnd it = some
        (match it.ref.docstring with
         | some d => d.begin
         | none => it.ref.body.begin, it.ref.body.end_)) ∧
    (∀ (it : SceneItem) (lastSuiteItem : Frag), it.scopedItem = true →
      it.subKind = SubKind.TOP_LEFT →
      (it.kind = CellKind.TRY_SCOPE ∨ it.kind = CellKind.FOR_SCOPE ∨
        it.kind = CellKind.WHILE_SCOPE) →
      it.ref.suite.getLast? = some lastSuiteItem →
      visualBeginEnd it = some (it.ref.body.begin, lastSuiteItem.end_)) := by
  obtain ⟨b, heq, hiff⟩ := isNestedScanSel_spec tb te sel hs
  have hmain : isNestedInSelected cand sel = some b := by
    unfold isNestedInSelected
    rw [hc]
    exact heq
  refine ⟨⟨b, hmain⟩, ?_, ?_, ?_⟩
  · rw [hmain]
    simp only [Option.some.injEq]
    exact hiff
  · intro it h1 h2 h3
    cases hdoc : it.ref.docstring with
    | none => simp [visualBeginEnd, h1, h2, h3, hdoc]
    | some d => simp [visualBeginEnd, h1, h2, h3, hdoc]
  · intro it lastSuiteItem h1 h2 h3 h4
    rcases h3 with hk | hk | hk <;> simp [visualBeginEnd, h1, h2, hk, h4]

/-- Witness for `isNestedInSelected_spec`: a code block spanning `[10, 20]`
is reported nested in a selected `for` scope whose visual span is
`[5, 30]`. -/
theorem isNestedInSelected_spec_witness :
    isNestedInSelected exItemCode [exItemForTL] = some true :=
  (isNestedInSelected_spec exItemCode [exItemForTL] 10 20 rfl
      (fun it hit _ _ => by rcases List.mem_singleton.mp hit with rfl; rfl)).2.1.mpr
    ⟨exItemForTL, List.mem_cons_self _ _, rfl, rfl, 5, 30, rfl,
      by norm_num, by norm_num⟩

/-- Invariant characterization of the first `getNearestItem` loop: the final
distance is the minimum line distance over the remaining non-proxy items
(and the accumulator), and the final candidate list consists exactly of its
achievers. -/
theorem nearestScan_spec (line : Nat) (l : List SceneItem) :
    ∀ (d : Nat) (cands : List SceneItem),
    (∀ x ∈ cands, x.proxy = false ∧ x.lineDist line = d) →
    ((d = maxint ∧ cands = []) ∨ (d < maxint ∧ cands ≠ [])) →
    (∀ x ∈ (nearestScan line l d cands).2, x ∈ cands ∨ x ∈ l) ∧
    (∀ x ∈ (nearestScan line l d cands).2,
      x.proxy = false ∧ x.lineDist line = (nearestScan line l d cands).1) ∧
    (nearestScan line l d cands).1 ≤ d ∧
    (∀ x ∈ l, x.proxy = false → x.lineDist line < maxint →
      (nearestScan line l d cands).1 ≤ x.lineDist line) ∧
    (∀ x ∈ l, x.proxy = false → x.lineDist line < maxint →
      x.lineDist line = (nearestScan line l d cands).1 →
      x ∈ (nearestScan line l d cands).2) ∧
    ((nearestScan line l d cands).1 = d →
      ∀ x ∈ cands, x ∈ (nearestScan line l d cands).2) ∧
    (((nearestScan line l d cands).1 = maxint ∧ (nearestScan line l d cands).2 = []) ∨
      ((nearestScan line l d cands).1 < maxint ∧ (nearestScan line l d cands).2 ≠ [])) := by
  induction l with
  | nil =>
    intro d cands hA1 hA2
    refine ⟨fun x hx => Or.inl hx, hA1, le_refl _, ?_, ?_, fun _ x hx => hx, hA2⟩
    · intro x hx; simp at hx
    · intro x hx; simp at hx
  | cons it rest ih =>
    intro d cands hA1 hA2
    by_cases hp : it.proxy
    · have hstep : nearestScan line (it :: rest) d cands =
          nearestScan line rest d cands := by
        simp only [nearestScan, hp, if_true]
      obtain ⟨r0, r1, r2, r3, r4, r5, r6⟩ := ih d cands hA1 hA2
      rw [hstep]
      refine ⟨fun x hx => (r0 x hx).imp id (List.mem_cons_of_mem _), r1, r2, ?_, ?_, r5, r6⟩
      · intro x hx hxp hxd
        rcases List.mem_cons.mp hx with rfl | hmem
        · rw [hp] at hxp; exact absurd hxp (by simp)
        · exact r3 x hmem hxp hxd
      · intro x hx hxp hxd hxe
        rcases List.mem_cons.mp hx with rfl | hmem
        · rw [hp] at hxp; exact absurd hxp (by simp)
        · exact r4 x hmem hxp hxd hxe
    · have hpf : it.proxy = false := by
        cases hq : it.proxy
        · rfl
        · exact absurd hq hp
      by_cases hmx : it.lineDist line = maxint
      · have hstep : nearestScan line (it :: rest) d cands =
            nearestScan line rest d cands := by
          simp only [nearestScan, hp, Bool.false_eq_true, if_false, hmx, if_true]
        obtain ⟨r0, r1, r2, r3, r4, r5, r6⟩ := ih d cands hA1 hA2
        rw [hstep]
        refine ⟨fun x hx => (r0 x hx).imp id (List.mem_cons_of_mem _), r1, r2, ?_, ?_,
          r5, r6⟩
        · intro x hx hxp hxd
          rcases List.mem_cons.mp hx with rfl | hmem
          · rw [hmx] at hxd; omega
          · exact r3 x hmem hxp hxd
        · intro x hx hxp hxd hxe
          rcases List.mem_cons.mp hx with rfl | hmem
          · rw [hmx] at hxd; omega
          · exact r4 x hmem hxp hxd hxe
      · by_cases hlt : it.lineDist line < d
        · have hstep : nearestScan line (it :: rest) d cands =
              nearestScan line rest (it.lineDist line) [it] := by
            simp only [nearestScan, hp, Bool.false_eq_true, if_false, hmx, hlt, if_true]
          have hdm : it.lineDist line < maxint := by
            rcases hA2 with ⟨hde, _⟩ | ⟨hdl, _⟩
            · omega
            · omega
          obtain ⟨r0, r1, r2, r3, r4, r5, r6⟩ := ih (it.lineDist line) [it]
            (by intro x hx; rcases List.mem_singleton.mp hx with rfl; exact ⟨hpf, rfl⟩)
            (Or.inr ⟨hdm, by simp⟩)
          rw [hstep]
          refine ⟨?_, r1, by omega, ?_, ?_, ?_, r6⟩
          · intro x hx
            rcases r0 x hx with hx1 | hx1
            · rcases List.mem_singleton.mp hx1 with rfl
              exact Or.inr (List.mem_cons_self _ _)
            · exact Or.inr (List.mem_cons_of_mem _ hx1)
          · intro x hx hxp hxd
            rcases List.mem_cons.mp hx with rfl | hmem
            · exact r2
            · exact r3 x hmem hxp hxd
          · intro x hx hxp hxd hxe
            rcases List.mem_cons.mp hx with rfl | hmem
            · exact r5 hxe.symm x (List.mem_singleton.mpr rfl)
            · exact r4 x hmem hxp hxd hxe
          · intro hre x hx
            omega
        · by_cases heq : it.lineDist line = d
          · have hstep : nearestScan line (it :: rest) d cands =
                nearestScan line rest d (cands ++ [it]) := by
              simp only [nearestScan, hp, Bool.false_eq_true, if_false, hmx, hlt,
                heq, if_true]
              rw [if_neg (show ¬ d = maxint by omega), if_neg (lt_irrefl d)]
            have hdm : d < maxint := by omega
            obtain ⟨r0, r1, r2, r3, r4, r5, r6⟩ := ih d (cands ++ [it])
              (by
                intro x hx
                rcases List.mem_append.mp hx with hx1 | hx1
                · exact hA1 x hx1
                · rcases List.mem_singleton.mp hx1 with rfl
                  exact ⟨hpf, heq⟩)
              (Or.inr ⟨hdm, by simp⟩)
            rw [hstep]
            refine ⟨?_, r1, r2, ?_, ?_, ?_, r6⟩
            · intro x hx
              rcases r0 x hx with hx1 | hx1
              · rcases List.mem_append.mp hx1 with hx2 | hx2
                · exact Or.inl hx2
                · rcases List.mem_singleton.mp hx2 with rfl
                  exact Or.inr (List.mem_cons_self _ _)
              · exact Or.inr (List.mem_cons_of_mem _ hx1)
            · intro x hx hxp hxd
              rcases List.mem_cons.mp hx with rfl | hmem
              · rw [heq]; exact r2
              · exact r3 x hmem hxp hxd
            · intro x hx hxp hxd hxe
              rcases List.mem_cons.mp hx with rfl | hmem
              · exact r5 (by omega) x (List.mem_append.mpr (Or.inr (List.mem_singleton.mpr rfl)))
              · exact r4 x hmem hxp hxd hxe
            · intro hre x hx
              exact r5 hre x (List.mem_append.mpr (Or.inl hx))
          · have hgt : ¬ it.lineDist line < d ∧ ¬ it.lineDist line = d := ⟨hlt, heq⟩
            have hstep : nearestScan line (it :: rest) d cands =
                nearestScan line rest d cands := by
              simp only [nearestScan, hp, Bool.false_eq_true, if_false, hmx, hlt,
                heq, if_false, if_true]
            obtain ⟨r0, r1, r2, r3, r4, r5, r6⟩ := ih d cands hA1 hA2
            rw [hstep]
            refine ⟨fun x hx => (r0 x hx).imp id (List.mem_cons_of_mem _), r1, r2,
              ?_, ?_, r5, r6⟩
            · intro x hx hxp hxd
              rcases List.mem_cons.mp hx with rfl | hmem
              · omega
              · exact r3 x hmem hxp hxd
            · intro x hx hxp hxd hxe
              rcases List.mem_cons.mp hx with rfl | hmem
              · omega
              · exact r4 x hmem hxp hxd hxe

/-- Characterization of the second `getNearestItem` loop once a candidate is
tracked: the result maps the position-distance minimizer (or an early item
whose distance is 0) through the logical-item mapping. -/
theorem nearestPosScan_spec (absPos : Nat) (l : List SceneItem) :
    ∀ (c : SceneItem),
    ∃ w, (w ∈ l ∨ w = c) ∧
      nearestPosScan absPos l (some c) (c.posDist absPos) =
        (getLogicalItem (some w), w.posDist absPos) ∧
      (∀ x ∈ l, w.posDist absPos ≤ x.posDist absPos) ∧
      w.posDist absPos ≤ c.posDist absPos := by
  induction l with
  | nil =>
    intro c
    exact ⟨c, Or.inr rfl, rfl, by intro x hx; simp at hx, le_refl _⟩
  | cons it rest ih =>
    intro c
    by_cases h0 : it.posDist absPos = 0
    · refine ⟨it, Or.inl (List.mem_cons_self _ _), ?_, ?_, ?_⟩
      · simp only [nearestPosScan, h0, if_pos]
      · intro x _; rw [h0]; omega
      · rw [h0]; omega
    · by_cases hlt : it.posDist absPos < c.posDist absPos
      · obtain ⟨w, hmem, heq, hmin, hle⟩ := ih it
        refine ⟨w, ?_, ?_, ?_, ?_⟩
        · rcases hmem with hm | rfl
          · exact Or.inl (List.mem_cons_of_mem _ hm)
          · exact Or.inl (List.mem_cons_self _ _)
        · simp only [nearestPosScan, h0, if_false, hlt, if_true]
          exact heq
        · intro x hx
          rcases List.mem_cons.mp hx with rfl | hm
          · exact hle
          · exact hmin x hm
        · exact le_trans hle (le_of_lt hlt)
      · obtain ⟨w, hmem, heq, hmin, hle⟩ := ih c
        refine ⟨w, ?_, ?_, ?_, hle⟩
        · rcases hmem with hm | rfl
          · exact Or.inl (List.mem_cons_of_mem _ hm)
          · exact Or.inr rfl
        · simp only [nearestPosScan, h0, if_false, hlt, if_false]
          exact heq
        · intro x hx
          rcases List.mem_cons.mp hx with rfl | hm
          · omega
          · exact hmin x hm

/-- `sys.maxint` is positive. -/
theorem maxint_pos : 0 < maxint := by norm_num [maxint]

/-- C7: `getNearestItem` returns (the logical mapping of) an item whose line
distance to the target line is minimal over all non-proxy items; with
minimal line distance 0 the returned item also minimizes the absolute
position distance among the zero-line-distance items, and whenever some
such item's position span contains the target position (position distance
0) the query's reported distance is 0 and the returned item is one such
item.  Hypotheses: some non-proxy item has a real line distance, and every
item's position distance is a real distance (below `sys.maxint`). -/
theorem getNearestItem_spec (items : List SceneItem) (absPos line pos : Nat)
    (hld : ∃ x ∈ items, x.proxy = false ∧ x.lineDist line < maxint)
    (hgd : ∀ x ∈ items, x.posDist absPos < maxint) :
    ∃ w ∈ items, w.proxy = false ∧
      (getNearestItem items absPos line pos).1 = getLogicalItem (some w) ∧
      (∀ x ∈ items, x.proxy = false → w.lineDist line ≤ x.lineDist line) ∧
      ((getNearestItem items absPos line pos).2 = w.lineDist line ∨
        (w.lineDist line = 0 ∧
          (getNearestItem items absPos line pos).2 = w.posDist absPos)) ∧
      (w.lineDist line = 0 →
        ∀ x ∈ items, x.proxy = false → x.lineDist line = 0 →
          w.posDist absPos ≤ x.posDist absPos) ∧
      (∀ x ∈ items, x.proxy = false → x.lineDist line = 0 → x.posDist absPos = 0 →
        (getNearestItem items absPos line pos).2 = 0 ∧ w.posDist absPos = 0) := by
  obtain ⟨r0, r1, r2, r3, r4, r5, r6⟩ := nearestScan_spec line items maxint []
    (by intro x hx; simp at hx) (Or.inl ⟨rfl, rfl⟩)
  obtain ⟨x0, hx0m, hx0p, hx0d⟩ := hld
  have hdlt : (nearestScan line items maxint []).1 < maxint :=
    lt_of_le_of_lt (r3 x0 hx0m hx0p hx0d) hx0d
  have hne : (nearestScan line items maxint []).2 ≠ [] := by
    rcases r6 with ⟨ha, _⟩ | ⟨_, hb⟩
    · omega
    · exact hb
  rcases hcands : (nearestScan line items maxint []).2 with _ | ⟨c, cs⟩
  · exact absurd hcands hne
  · have hcmem : c ∈ items := by
      rcases r0 c (by rw [hcands]; exact List.mem_cons_self _ _) with h | h
      · simp at h
      · exact h
    have hcprops := r1 c (by rw [hcands]; exact List.mem_cons_self _ _)
    have hmin_all : ∀ x ∈ items, x.proxy = false →
        (nearestScan line items maxint []).1 ≤ x.lineDist line := by
      intro x hx hxp
      by_cases hxd : x.lineDist line < maxint
      · exact r3 x hx hxp hxd
      · omega
    cases cs with
    | nil =>
      have hpair : nearestScan line items maxint [] =
          ((nearestScan line items maxint []).1, [c]) := by
        rw [← hcands]
      have hgi : getNearestItem items absPos line pos =
          (getLogicalItem (some c), (nearestScan line items maxint []).1) := by
        unfold getNearestItem
        rw [hpair]
      have hach : ∀ x ∈ items, x.proxy = false → x.lineDist line = 0 → x = c := by
        intro x hx hxp hx0
        have hdz : (nearestScan line items maxint []).1 = 0 := by
          have := hmin_all x hx hxp
          omega
        have hx4 := r4 x hx hxp (by rw [hx0]; exact maxint_pos)
          (by rw [hx0, hdz])
        rw [hcands] at hx4
        rcases List.mem_singleton.mp hx4 with rfl
        rfl
      refine ⟨c, hcmem, hcprops.1, by rw [hgi], ?_, ?_, ?_, ?_⟩
      · intro x hx hxp
        rw [hcprops.2]
        exact hmin_all x hx hxp
      · left
        rw [hgi, hcprops.2]
      · intro h0 x hx hxp hx0
        rcases hach x hx hxp hx0
        exact le_refl _
      · intro x hx hxp hx0 hxg
        have hxc := hach x hx hxp hx0
        subst hxc
        refine ⟨?_, hxg⟩
        rw [hgi]
        have := hmin_all x hx hxp
        omega
    | cons c2 cs2 =>
      have hpair : nearestScan line items maxint [] =
          ((nearestScan line items maxint []).1, c :: c2 :: cs2) := by
        rw [← hcands]
      have hgi : getNearestItem items absPos line pos =
          (if (nearestScan line items maxint []).1 ≠ 0 then
            (getLogicalItem (some c), (nearestScan line items maxint []).1)
          else nearestPosScan absPos (c :: c2 :: cs2) none maxint) := by
        unfold getNearestItem
        rw [hpair]
      by_cases hd0 : (nearestScan line items maxint []).1 = 0
      · have hgi2 : getNearestItem items absPos line pos =
            nearestPosScan absPos (c :: c2 :: cs2) none maxint := by
          rw [hgi, if_neg (by omega)]
        have hcg : c.posDist absPos < maxint := hgd c hcmem
        have hmem_cands : ∀ y, y ∈ (c :: c2 :: cs2) → y ∈ items := by
          intro y hy
          rcases r0 y (by rw [hcands]; exact hy) with h | h
          · simp at h
          · exact h
        have hachv : ∀ x ∈ items, x.proxy = false → x.lineDist line = 0 →
            x ∈ (c :: c2 :: cs2) := by
          intro x hx hxp hx0
          have hx4 := r4 x hx hxp (by rw [hx0]; exact maxint_pos)
            (by rw [hx0, hd0])
          rw [hcands] at hx4
          exact hx4
        by_cases hc0 : c.posDist absPos = 0
        · have hgi3 : getNearestItem items absPos line pos =
              (getLogicalItem (some c), 0) := by
            rw [hgi2]
            simp only [nearestPosScan, hc0, if_pos]
          refine ⟨c, hcmem, hcprops.1, by rw [hgi3], ?_, ?_, ?_, ?_⟩
          · intro x hx hxp
            rw [hcprops.2, hd0]
            omega
          · right
            rw [hgi3, hcprops.2, hd0, hc0]
            exact ⟨rfl, rfl⟩
          · intro _ x hx hxp hx0
            rw [hc0]
            omega
          · intro x hx hxp hx0 hxg
            rw [hgi3]
            exact ⟨rfl, hc0⟩
        · have hgi3 : getNearestItem items absPos line pos =
              nearestPosScan absPos (c2 :: cs2) (some c) (c.posDist absPos) := by
            rw [hgi2]
            simp only [nearestPosScan, hc0, if_false, hcg, if_true]
          obtain ⟨w, hwm, heqq, hwmin, hwle⟩ := nearestPosScan_spec absPos (c2 :: cs2) c
          have hw_cands : w ∈ (c :: c2 :: cs2) := by
            rcases hwm with h | rfl
            · exact List.mem_cons_of_mem _ h
            · exact List.mem_cons_self _ _
          have hw_items : w ∈ items := hmem_cands w hw_cands
          have hwprops := r1 w (by rw [hcands]; exact hw_cands)
          have hmin_pos : ∀ x ∈ items, x.proxy = false → x.lineDist line = 0 →
              w.posDist absPos ≤ x.posDist absPos := by
            intro x hx hxp hx0
            rcases List.mem_cons.mp (hachv x hx hxp hx0) with rfl | hx2
            · exact hwle
            · exact hwmin x hx2
          refine ⟨w, hw_items, hwprops.1, by rw [hgi3, heqq], ?_, ?_, ?_, ?_⟩
          · intro x hx hxp
            rw [hwprops.2, hd0]
            omega
          · right
            rw [hgi3, heqq, hwprops.2, hd0]
            exact ⟨rfl, rfl⟩
          · intro _
            exact hmin_pos
          · intro x hx hxp hx0 hxg
            have hwz : w.posDist absPos = 0 := by
              have := hmin_pos x hx hxp hx0
              omega
            refine ⟨?_, hwz⟩
            rw [hgi3, heqq, hwz]
      · have hgi2 : getNearestItem items absPos line pos =
            (getLogicalItem (some c), (nearestScan line items maxint []).1) := by
          rw [hgi, if_pos hd0]
        refine ⟨c, hcmem, hcprops.1, by rw [hgi2], ?_, ?_, ?_, ?_⟩
        · intro x hx hxp
          rw [hcprops.2]
          exact hmin_all x hx hxp
        · left
          rw [hgi2, hcprops.2]
        · intro h0
          rw [hcprops.2] at h0
          exact absurd h0 hd0
        · intro x hx hxp hx0 hxg
          have := hmin_all x hx hxp
          omega

/-- Witness for `getNearestItem_spec`: two sibling items both at line
distance 0 from line 7, but only the first contains absolute position 50 —
the query reports distance 0. -/
theorem getNearestItem_spec_witness :
    (getNearestItem [exItemNearA, exItemNearB] 50 7 2).2 = 0 := by
  obtain ⟨w, hw, hp, h1, h2, h3, h4, h5⟩ :=
    getNearestItem_spec [exItemNearA, exItemNearB] 50 7 2
      ⟨exItemNearA, List.mem_cons_self _ _, rfl, maxint_pos⟩
      (by
        intro x hx
        rcases List.mem_cons.mp hx with rfl | hx2
        · exact maxint_pos
        · rcases List.mem_singleton.mp hx2 with rfl
          show (30 : Nat) < maxint
          norm_num [maxint])
  exact (h5 exItemNearA (List.mem_cons_self _ _) rfl rfl rfl).1
